import Mathlib

/-!
Verification of the Ludo game-session engine of `ludo-nadwa-server`.

The definitions below are a shallow embedding of the Go model code in
`models` (the `Game` aggregate, rule evaluator, captures, turn rotation,
chat, and the manager's create/join color assignment).  Go maps from
player id to player are modelled as association lists (`List Player`,
looked up with `List.find?` on the id); the in-place pointer mutation of
a player's piece becomes a keyed functional replacement.  Go `int` is
modelled as `Int` and Go's truncated `%` as `Int.tmod`.  Time stamps
(`CreatedAt`, `TurnStartTime`, `LastActivity`, `PausedAt`, message
timestamps) and the random sources are not modelled: the dice value and
the room code are taken as parameters, and operations that in Go only
bump a timestamp are modelled as leaving the state unchanged.  Errors
are modelled with `Except`; the source returns an error before any
mutation on every error path embedded here, so an error result leaves
the session state unchanged by construction.
-/

namespace LudoNadwa

/-- Player colors of the source (`PlayerColor` constants). -/
inductive PlayerColor where
  | red | blue | green | yellow | purple | orange | olive | indigo
deriving DecidableEq, Repr

/-- Lifecycle states of a game session (`GameState` constants). -/
inductive GameState where
  | waiting | playing | paused | ended
deriving DecidableEq, Repr

/-- Board constants from the source. -/
def boardSize : Int := 52

def hexBoardSize : Int := 72

def homeStretchSize : Int := 6

def finishPosition : Int := 100

def piecesPerPlayer : Nat := 4

def homePosition : Int := -1

def maxConsecutiveSixes : Int := 3

def maxChatMessageLen : Nat := 500

/-- `PlayerStartPositions` map; a color missing from the Go map yields the
zero value 0. -/
def playerStartPositions : PlayerColor → Int
  | .red => 0
  | .blue => 13
  | .green => 26
  | .yellow => 39
  | _ => 0

/-- `HexPlayerStartPositions` map (zero default for missing colors). -/
def hexPlayerStartPositions : PlayerColor → Int
  | .blue => 0
  | .red => 12
  | .green => 24
  | .purple => 36
  | .olive => 48
  | .indigo => 60
  | _ => 0

/-- `PlayerHomeStretchEntry` map (zero default for missing colors). -/
def playerHomeStretchEntry : PlayerColor → Int
  | .red => 50
  | .blue => 11
  | .green => 24
  | .yellow => 37
  | _ => 0

/-- `HexPlayerHomeStretchEntry` map (zero default for missing colors). -/
def hexPlayerHomeStretchEntry : PlayerColor → Int
  | .blue => 70
  | .red => 10
  | .green => 22
  | .purple => 34
  | .olive => 46
  | .indigo => 58
  | _ => 0

/-- `SafeZones` membership for the square board. -/
def safeZones (p : Int) : Bool :=
  p == 0 || p == 8 || p == 13 || p == 21 || p == 26 || p == 34 || p == 39 || p == 47

/-- `HexSafeZones` membership for the hexagonal board. -/
def hexSafeZones (p : Int) : Bool :=
  p == 0 || p == 3 || p == 12 || p == 15 || p == 24 || p == 27 ||
  p == 36 || p == 39 || p == 48 || p == 51 || p == 60 || p == 63

/-- `GetBoardSize`. -/
def getBoardSize (maxPlayers : Int) : Int :=
  if 5 ≤ maxPlayers then hexBoardSize else boardSize

/-- `GetStartPosition`. -/
def getStartPosition (color : PlayerColor) (maxPlayers : Int) : Int :=
  if 5 ≤ maxPlayers then hexPlayerStartPositions color else playerStartPositions color

/-- `GetHomeStretchEntry`. -/
def getHomeStretchEntry (color : PlayerColor) (maxPlayers : Int) : Int :=
  if 5 ≤ maxPlayers then hexPlayerHomeStretchEntry color else playerHomeStretchEntry color

/-- `IsSafeZone`. -/
def isSafeZone (position : Int) (maxPlayers : Int) : Bool :=
  if 5 ≤ maxPlayers then hexSafeZones position else safeZones position

/-- `Piece` struct. -/
structure Piece where
  id : Int
  position : Int
  homeStretchPosition : Int
  isHome : Bool
  isSafe : Bool
  isFinished : Bool
deriving DecidableEq, Repr

/-- `Player` struct (the `LastActivity` time stamp is not modelled). -/
structure Player where
  id : String
  name : String
  color : PlayerColor
  pieces : List Piece
  order : Int
  isReady : Bool
  isHost : Bool
  isBot : Bool
deriving DecidableEq, Repr

/-- `Spectator` struct (time stamp not modelled). -/
structure Spectator where
  id : String
  name : String
deriving DecidableEq, Repr

/-- `MoveRecord` struct (time stamp not modelled). -/
structure MoveRecord where
  playerID : String
  playerName : String
  pieceID : Int
  diceRoll : Int
  fromPos : Int
  toPos : Int
  wasCapture : Bool
  wasFromHome : Bool
  capturedPID : String
deriving DecidableEq, Repr

/-- `ChatMessage` struct (time stamp not modelled). -/
structure ChatMessage where
  playerID : String
  playerName : String
  message : String
  isSpectator : Bool
deriving DecidableEq, Repr

/-- `Game` struct.  The id-keyed Go maps `Players` and `Spectators` are
modelled as lists looked up by id; the time stamps and the lock are not
modelled. -/
structure Game where
  code : String
  players : List Player
  spectators : List Spectator
  state : GameState
  currentTurn : String
  maxPlayers : Int
  lastDiceRoll : Int
  hasRolled : Bool
  consecutiveSixes : Int
  winner : String
  hostId : String
  moveHistory : List MoveRecord
  chatMessages : List ChatMessage
  captureGrantsTurn : Bool
deriving DecidableEq, Repr

/-- `hasCompletedLap`.  The Go source branches on
`startPos <= homeStretchEntry` but both branches return the identical
expression `currentPos > startPos || currentPos <= homeStretchEntry`. -/
def hasCompletedLap (maxPlayers : Int) (color : PlayerColor) (currentPos : Int) : Bool :=
  let startPos := getStartPosition color maxPlayers
  let entry := getHomeStretchEntry color maxPlayers
  decide (startPos < currentPos) || decide (currentPos ≤ entry)

/-- `calculateNewPosition`: result is `(newPosition, enteredHomeStretch,
homeStretchPosition)`. -/
def calculateNewPosition (maxPlayers : Int) (color : PlayerColor)
    (currentPos diceRoll : Int) : Int × Bool × Int :=
  let entry := getHomeStretchEntry color maxPlayers
  let bsize := getBoardSize maxPlayers
  let stepsToEntry := if currentPos ≤ entry then entry - currentPos else (bsize - currentPos) + entry
  let lap := hasCompletedLap maxPlayers color currentPos
  if lap ∧ stepsToEntry < diceRoll then
    (-2, true, diceRoll - stepsToEntry)
  else if lap ∧ diceRoll = stepsToEntry then
    (entry, false, 0)
  else
    ((currentPos + diceRoll).tmod bsize, false, 0)

/-- Errors raised by the session operations (a subset of the `Err...`
values of the source, one constructor per distinct error). -/
inductive GameErr where
  | gamePaused
  | notPlaying
  | notPlayerTurn
  | alreadyRolled
  | mustRollFirst
  | playerNotFound
  | invalidPieceID
  | invalidMove
  | chatTooLong
  | invalidPlayerID
  | invalidPlayerName
  | gameStarted
  | gameFull
  | playerExists
deriving DecidableEq, Repr

/-- The piece reset performed on a captured victim inside
`checkAndCapture`: back home with `Position = -1`,
`HomeStretchPosition = 0`, `IsHome = true`, `IsSafe = false`. -/
def capturePiece (position : Int) (pc : Piece) : Piece :=
  if pc.position = position ∧ pc.isHome = false ∧ pc.isFinished = false ∧
      pc.homeStretchPosition = 0 then
    { pc with position := homePosition, isHome := true, isSafe := false,
              homeStretchPosition := 0 }
  else pc

/-- The per-piece capture test of `checkAndCapture`. -/
def capturable (position : Int) (pc : Piece) : Bool :=
  pc.position == position && !pc.isHome && !pc.isFinished && pc.homeStretchPosition == 0

/-- The per-player action of `checkAndCapture`: the mover's own pieces
are skipped, every other player's pieces go through `capturePiece`. -/
def capPlayer (currentPlayerID : String) (position : Int) (pl : Player) : Player :=
  if pl.id == currentPlayerID then pl
  else { pl with pieces := pl.pieces.map (capturePiece position) }

/-- `checkAndCapture`: every piece of every other player sitting on
`position` (on the main track) is sent back home; the flag is true iff
at least one capture occurred. -/
def checkAndCapture (g : Game) (currentPlayerID : String) (position : Int) :
    Game × Bool :=
  let captured := g.players.any (fun pl =>
    pl.id != currentPlayerID && pl.pieces.any (capturable position))
  ({ g with players := g.players.map (capPlayer currentPlayerID position) }, captured)

/-- `nextTurn`: move the cursor to the player whose order is
`(currentOrder + 1) mod N` and clear `HasRolled`.  The source
dereferences `g.Players[g.CurrentTurn]` unconditionally; the model
leaves the game unchanged when the current player or the next order is
absent, cases unreachable under the hypotheses of the theorems below
(the source would panic on the first and silently not rotate on the
second). -/
def nextTurn (g : Game) : Game :=
  match g.players.find? (fun p => p.id == g.currentTurn) with
  | none => g
  | some cur =>
    let nextOrder := (cur.order + 1).tmod (g.players.length : Int)
    match g.players.find? (fun p => p.order == nextOrder) with
    | none => g
    | some nxt => { g with currentTurn := nxt.id, hasRolled := false }

/-- Result of `RollDice`, which in Go returns the pair
`(roll, error)`: `ok` for a plain successful roll, `threeSixes` for the
successful roll that returns the roll together with `ErrThreeSixes`
after forfeiting the turn, `err` for the precondition failures (which
leave the session unchanged and return roll 0). -/
inductive RollResult where
  | ok : Int → Game → RollResult
  | threeSixes : Int → Game → RollResult
  | err : GameErr → RollResult
deriving DecidableEq, Repr

/-- `RollDice`.  The cryptographic dice draw is the parameter `roll`. -/
def rollDice (g : Game) (playerID : String) (roll : Int) : RollResult :=
  if g.state = .paused then .err .gamePaused
  else if g.state ≠ .playing then .err .notPlaying
  else if g.currentTurn ≠ playerID then .err .notPlayerTurn
  else if g.hasRolled then .err .alreadyRolled
  else
    let g1 := { g with lastDiceRoll := roll, hasRolled := true }
    if roll = 6 then
      let g2 := { g1 with consecutiveSixes := g1.consecutiveSixes + 1 }
      if maxConsecutiveSixes ≤ g2.consecutiveSixes then
        .threeSixes roll (nextTurn { g2 with consecutiveSixes := 0, hasRolled := false })
      else .ok roll g2
    else .ok roll { g1 with consecutiveSixes := 0 }

/-- The piece-update part of `MovePiece` (the if/else chain on the moved
piece).  Returns the updated piece together with the flag telling
whether the capture check runs (in the source, `checkAndCapture` is
called exactly in the stay-on-track branch when the landing cell is not
a safe zone). -/
def computeMovedPiece (maxPlayers : Int) (color : PlayerColor) (roll : Int)
    (piece : Piece) (pieceID : Int) : Except GameErr (Piece × Bool) :=
  if piece.isHome ∧ roll = 6 then
    .ok ({ piece with isHome := false,
                      position := getStartPosition color maxPlayers,
                      isSafe := true }, false)
  else if 0 < piece.homeStretchPosition then
    let newHS := piece.homeStretchPosition + roll
    if homeStretchSize < newHS then .error .invalidMove
    else if newHS = homeStretchSize then
      .ok ({ piece with homeStretchPosition := homeStretchSize,
                        position := finishPosition + pieceID,
                        isFinished := true, isSafe := true }, false)
    else
      .ok ({ piece with homeStretchPosition := newHS, isSafe := true }, false)
  else
    match calculateNewPosition maxPlayers color piece.position roll with
    | (newPosition, enteredHS, hsPos) =>
      if enteredHS then
        if homeStretchSize < hsPos then .error .invalidMove
        else if hsPos = homeStretchSize then
          .ok ({ piece with position := finishPosition + pieceID,
                            homeStretchPosition := homeStretchSize,
                            isFinished := true, isSafe := true }, false)
        else
          .ok ({ piece with position := -2, homeStretchPosition := hsPos,
                            isSafe := true }, false)
      else
        let safe := isSafeZone newPosition maxPlayers
        .ok ({ piece with position := newPosition, isSafe := safe }, !safe)

/-- The per-player action of writing the updated mover back into the
players map. -/
def replF (player' : Player) (q : Player) : Player :=
  if q.id = player'.id then player' else q

/-- Keyed functional update of the mover inside the players map
(the source mutates the player in place through the map pointer). -/
def replacePlayer (g : Game) (player' : Player) : Game :=
  { g with players := g.players.map (replF player') }

/-- Fallback piece for list indexing (never reached under the source's
bound check on `pieceID`). -/
def defaultPiece : Piece :=
  { id := 0, position := homePosition, homeStretchPosition := 0,
    isHome := true, isSafe := false, isFinished := false }

/-- The mover with the moved piece written back at its index. -/
def moverAfter (player : Player) (pieceID : Int) (piece' : Piece) : Player :=
  { player with pieces := player.pieces.set pieceID.toNat piece' }

/-- Write the updated mover back and, when the landing asked for it, run
the capture check on the landing cell. -/
def afterCaptures (g : Game) (playerID : String) (player' : Player)
    (target : Int) (doCapture : Bool) : Game × Bool :=
  let g1 := replacePlayer g player'
  if doCapture then checkAndCapture g1 playerID target else (g1, false)

/-- The `MoveRecord` appended by `MovePiece` (note the source never sets
`CapturedPID` or `PlayerName`, leaving their zero values). -/
def moveRecordOf (g : Game) (playerID : String) (pieceID : Int)
    (piece piece' : Piece) (captured : Bool) : MoveRecord :=
  { playerID := playerID, playerName := "", pieceID := pieceID,
    diceRoll := g.lastDiceRoll,
    fromPos := if 0 < piece.homeStretchPosition then -piece.homeStretchPosition
               else piece.position,
    toPos := piece'.position,
    wasCapture := captured, wasFromHome := piece.isHome, capturedPID := "" }

/-- The tail of `MovePiece` past the piece computation: write the
updated piece back, run the capture check, append the `MoveRecord`,
detect the win, and otherwise clear `HasRolled` and rotate the turn
unless an extra turn was earned. -/
def finishMove (g : Game) (playerID : String) (pieceID : Int) (player : Player)
    (piece piece' : Piece) (doCapture : Bool) : Game :=
  let player' := moverAfter player pieceID piece'
  let cap := afterCaptures g playerID player' piece'.position doCapture
  let record := moveRecordOf g playerID pieceID piece piece' cap.2
  let g3 := { cap.1 with moveHistory := cap.1.moveHistory ++ [record] }
  if player'.pieces.all (fun p => p.isFinished) then
    { g3 with state := .ended, winner := playerID, hasRolled := false }
  else
    let g4 := { g3 with hasRolled := false }
    if g.lastDiceRoll = 6 ∨ (cap.2 ∧ g.captureGrantsTurn) then g4
    else nextTurn { g4 with consecutiveSixes := 0 }

/-- `MovePiece`. -/
def movePiece (g : Game) (playerID : String) (pieceID : Int) : Except GameErr Game :=
  if g.state = .paused then .error .gamePaused
  else if g.state ≠ .playing then .error .notPlaying
  else if g.currentTurn ≠ playerID then .error .notPlayerTurn
  else if ¬g.hasRolled then .error .mustRollFirst
  else
    match g.players.find? (fun p => p.id == playerID) with
    | none => .error .playerNotFound
    | some player =>
      if pieceID < 0 ∨ (player.pieces.length : Int) ≤ pieceID then .error .invalidPieceID
      else
        let piece := player.pieces.getD pieceID.toNat defaultPiece
        if piece.isFinished then .error .invalidMove
        else if piece.isHome ∧ g.lastDiceRoll ≠ 6 then .error .invalidMove
        else
          match computeMovedPiece g.maxPlayers player.color g.lastDiceRoll piece pieceID with
          | .error e => .error e
          | .ok (piece', doCapture) =>
            .ok (finishMove g playerID pieceID player piece piece' doCapture)

/-- `getValidMovesInternal`: ids of the player's pieces that can move
with the current `LastDiceRoll`.  Note the source consults neither
`CurrentTurn` nor `HasRolled`. -/
def getValidMovesInternal (g : Game) (playerID : String) : List Int :=
  match g.players.find? (fun p => p.id == playerID) with
  | none => []
  | some player =>
    player.pieces.filterMap (fun piece =>
      if piece.isFinished then none
      else if piece.isHome then
        if g.lastDiceRoll = 6 then some piece.id else none
      else if 0 < piece.homeStretchPosition then
        if piece.homeStretchPosition + g.lastDiceRoll ≤ homeStretchSize then some piece.id
        else none
      else
        match calculateNewPosition g.maxPlayers player.color piece.position g.lastDiceRoll with
        | (_, enteredHS, hsPos) =>
          if enteredHS then
            if hsPos ≤ homeStretchSize then some piece.id else none
          else some piece.id)

/-- `GetValidMoves` (the public wrapper only takes the read lock). -/
def getValidMoves (g : Game) (playerID : String) : List Int :=
  getValidMovesInternal g playerID

/-- Go's `strings.TrimSpace`: drop whitespace from both ends.  Written
over the character list so that it evaluates inside the kernel. -/
def trimSpace (s : String) : String :=
  String.mk (((s.data.dropWhile Char.isWhitespace).reverse.dropWhile
    Char.isWhitespace).reverse)

/-- `SendChatMessage`.  The length check of the source is
`len(message) > MaxChatMessageLen` on the raw message (UTF-8 byte
length, before trimming); the stored text is trimmed. -/
def sendChatMessage (g : Game) (playerID message : String) : Except GameErr Game :=
  match g.players.find? (fun p => p.id == playerID) with
  | some player =>
    if maxChatMessageLen < message.utf8ByteSize then .error .chatTooLong
    else .ok { g with chatMessages := g.chatMessages ++
      [{ playerID := playerID, playerName := player.name,
         message := trimSpace message, isSpectator := false }] }
  | none =>
    match g.spectators.find? (fun s => s.id == playerID) with
    | some spec =>
      if maxChatMessageLen < message.utf8ByteSize then .error .chatTooLong
      else .ok { g with chatMessages := g.chatMessages ++
        [{ playerID := playerID, playerName := spec.name,
           message := trimSpace message, isSpectator := true }] }
    | none => .error .playerNotFound

/-- `ValidatePlayerID` character class (`[a-zA-Z0-9_-]`). -/
def isIDChar (c : Char) : Bool :=
  c.isAlpha || c.isDigit || c == '_' || c == '-'

/-- `ValidatePlayerID`: byte length in `[1,64]` and every character in
the id character class. -/
def validatePlayerID (id : String) : Bool :=
  1 ≤ id.utf8ByteSize && id.utf8ByteSize ≤ 64 && id.data.all isIDChar

/-- `ValidatePlayerName`: trimmed rune count in `[1,30]`. -/
def validatePlayerName (name : String) : Bool :=
  1 ≤ (trimSpace name).length && (trimSpace name).length ≤ 30

/-- The four fresh home pieces created for a joining player or the host. -/
def newPieces : List Piece :=
  (List.range piecesPerPlayer).map (fun i =>
    { id := (i : Int), position := homePosition, homeStretchPosition := 0,
      isHome := true, isSafe := false, isFinished := false })

/-- Hex-board color palette used by `JoinGame`/`AddBot`/`KickPlayer`
(clockwise from the bottom). -/
def hexColors : List PlayerColor := [.blue, .red, .green, .purple, .olive, .indigo]

/-- Square-board color palette used by `JoinGame`/`AddBot`/`KickPlayer`. -/
def squareColors : List PlayerColor := [.red, .blue, .green, .yellow]

/-- `GameManager.CreateGame`.  The generated room code is the parameter
`code`; the host is created with color `Red` and order 0. -/
def createGame (hostID hostName : String) (maxPlayers : Int) (code : String) :
    Except GameErr Game :=
  if ¬validatePlayerID hostID then .error .invalidPlayerID
  else if ¬validatePlayerName hostName then .error .invalidPlayerName
  else
    let mp := if maxPlayers < 2 ∨ 6 < maxPlayers then 4 else maxPlayers
    let host : Player :=
      { id := hostID, name := trimSpace hostName, color := .red, pieces := newPieces,
        order := 0, isReady := false, isHost := true, isBot := false }
    .ok { code := code, players := [host], spectators := [], state := .waiting,
          currentTurn := "", maxPlayers := mp, lastDiceRoll := 0, hasRolled := false,
          consecutiveSixes := 0, winner := "", hostId := hostID, moveHistory := [],
          chatMessages := [], captureGrantsTurn := true }

/-- `GameManager.JoinGame` (the part past the registry lookup): the
joiner's color comes from the variant palette indexed by the current
player count. -/
def joinGame (g : Game) (playerID playerName : String) : Except GameErr Game :=
  if ¬validatePlayerID playerID then .error .invalidPlayerID
  else if ¬validatePlayerName playerName then .error .invalidPlayerName
  else if g.state ≠ .waiting then .error .gameStarted
  else if g.maxPlayers ≤ (g.players.length : Int) then .error .gameFull
  else if (g.players.find? (fun p => p.id == playerID)).isSome then .error .playerExists
  else
    let color := if 5 ≤ g.maxPlayers then hexColors.getD (g.players.length % 6) .red
                 else squareColors.getD (g.players.length % 4) .red
    let player : Player :=
      { id := playerID, name := trimSpace playerName, color := color, pieces := newPieces,
        order := (g.players.length : Int), isReady := false, isHost := false,
        isBot := false }
    .ok { g with players := g.players ++ [player] }

/-! ### Basic facts about the board geometry tables -/

/-- Every home-stretch entry cell lies on the main track of its board. -/
lemma getHomeStretchEntry_bounds (c : PlayerColor) (m : Int) :
    0 ≤ getHomeStretchEntry c m ∧ getHomeStretchEntry c m < getBoardSize m := by
  unfold getHomeStretchEntry getBoardSize hexPlayerHomeStretchEntry
    playerHomeStretchEntry hexBoardSize boardSize
  by_cases h : 5 ≤ m <;> cases c <;> simp [h]

/-- The board has positive size. -/
lemma getBoardSize_pos (m : Int) : 0 < getBoardSize m := by
  unfold getBoardSize hexBoardSize boardSize
  by_cases h : 5 ≤ m <;> simp [h]

/-- Every start cell is a safe zone on its own board (both palettes,
including the zero default of colors missing from the Go maps). -/
lemma isSafeZone_getStartPosition (c : PlayerColor) (m : Int) :
    isSafeZone (getStartPosition c m) m = true := by
  unfold isSafeZone getStartPosition hexPlayerStartPositions playerStartPositions
    safeZones hexSafeZones
  by_cases h : 5 ≤ m <;> cases c <;> simp [h]

/-- C5: on the main track the advance computation enters the home
stretch at index `r - stepsToEntry` exactly when the piece is
lap-eligible and `r > stepsToEntry`, with
`stepsToEntry = (stretchEntry(color) - p) mod L`; in every other case the
piece moves on-track to `(p + r) mod L` (landing exactly on the entry
cell is on-track movement).  Moreover for any roll of at most 6 the
lap-eligibility predicate never blocks an otherwise-possible stretch
entry: `r > stepsToEntry` already forces eligibility. -/
theorem calculateNewPosition_spec (m : Int) (c : PlayerColor) (p r : Int)
    (hp0 : 0 ≤ p) (hpL : p < getBoardSize m) (hr1 : 1 ≤ r) (hr6 : r ≤ 6) :
    (calculateNewPosition m c p r =
      if hasCompletedLap m c p ∧ (getHomeStretchEntry c m - p) % getBoardSize m < r then
        (-2, true, r - (getHomeStretchEntry c m - p) % getBoardSize m)
      else ((p + r) % getBoardSize m, false, 0))
    ∧ ((getHomeStretchEntry c m - p) % getBoardSize m < r → hasCompletedLap m c p = true) := by
  obtain ⟨he0, heL⟩ := getHomeStretchEntry_bounds c m
  have hL : 0 < getBoardSize m := getBoardSize_pos m
  set L := getBoardSize m with hLdef
  set e := getHomeStretchEntry c m with hedef
  -- the source's branching expression for stepsToEntry equals (e - p) mod L
  have hsteps : (if p ≤ e then e - p else (L - p) + e) = (e - p) % L := by
    by_cases hpe : p ≤ e
    · rw [if_pos hpe, Int.emod_eq_of_lt (by omega) (by omega)]
    · rw [if_neg hpe]
      have h1 : (e - p) % L = (e - p + L * 1) % L := by
        rw [Int.add_mul_emod_self_left]
      rw [h1, Int.emod_eq_of_lt (by omega) (by omega)]
      ring
  constructor
  · simp only [calculateNewPosition, ← hLdef, ← hedef]
    rw [hsteps]
    by_cases h1 : hasCompletedLap m c p ∧ (e - p) % L < r
    · rw [if_pos h1, if_pos h1]
    · rw [if_neg h1, if_neg h1]
      by_cases h2 : hasCompletedLap m c p ∧ r = (e - p) % L
      · -- exact landing on the entry cell: (p + r) mod L is the entry cell
        rw [if_pos h2]
        have hr' : r = (e - p) % L := h2.2
        by_cases hpe : p ≤ e
        · have : (e - p) % L = e - p := Int.emod_eq_of_lt (by omega) (by omega)
          rw [hr', this]
          have : (p + (e - p)) % L = e := by
            rw [show p + (e - p) = e by ring, Int.emod_eq_of_lt (by omega) (by omega)]
          rw [this]
        · have hmod : (e - p) % L = e - p + L := by
            have h1 : (e - p) % L = (e - p + L * 1) % L := by
              rw [Int.add_mul_emod_self_left]
            rw [h1, Int.emod_eq_of_lt (by omega) (by omega)]; ring
          rw [hr', hmod]
          have : (p + (e - p + L)) % L = e := by
            rw [show p + (e - p + L) = e + L * 1 by ring, Int.add_mul_emod_self_left,
              Int.emod_eq_of_lt (by omega) (by omega)]
          rw [this]
      · rw [if_neg h2, Int.tmod_eq_emod (by omega) (by omega)]
  · -- eligibility is forced whenever r > stepsToEntry for r ≤ 6
    intro hlt
    by_contra hlap
    have hlap' : ¬(getStartPosition c m < p) ∧ ¬(p ≤ e) := by
      unfold hasCompletedLap at hlap
      rw [← hedef] at hlap
      constructor
      · intro h; exact hlap (by simp [h])
      · intro h; exact hlap (by simp [h])
    obtain ⟨hps, hpe⟩ := hlap'
    have hmod : (e - p) % L = e - p + L := by
      have h1 : (e - p) % L = (e - p + L * 1) % L := by
        rw [Int.add_mul_emod_self_left]
      rw [h1, Int.emod_eq_of_lt (by omega) (by omega)]; ring
    rw [hmod] at hlt
    -- with p ≤ start this forces r > L - start + e, impossible for r ≤ 6
    have hbound : 6 + getStartPosition c m < L + e := by
      rw [hLdef, hedef]
      unfold getStartPosition getHomeStretchEntry getBoardSize
        hexPlayerStartPositions playerStartPositions hexPlayerHomeStretchEntry
        playerHomeStretchEntry hexBoardSize boardSize
      by_cases h : 5 ≤ m <;> cases c <;> simp [h]
    omega

/-- C5 witness: red, position 48, roll 4 on the square board enters the
stretch at index `4 - 2 = 2`. -/
theorem calculateNewPosition_spec_witness :
    (calculateNewPosition 4 .red 48 4 =
      if hasCompletedLap 4 .red 48 ∧ (getHomeStretchEntry .red 4 - 48) % getBoardSize 4 < 4 then
        (-2, true, 4 - (getHomeStretchEntry .red 4 - 48) % getBoardSize 4)
      else ((48 + 4) % getBoardSize 4, false, 0))
    ∧ ((getHomeStretchEntry .red 4 - 48) % getBoardSize 4 < 4 →
        hasCompletedLap 4 .red 48 = true) :=
  calculateNewPosition_spec 4 .red 48 4 (by decide) (by decide) (by decide) (by decide)

/-! ### Concrete sessions used by witnesses and counterexamples -/

/-- A piece sitting on main-track cell `pos`. -/
def onTrackPiece (i pos : Int) : Piece :=
  { id := i, position := pos, homeStretchPosition := 0, isHome := false,
    isSafe := false, isFinished := false }

/-- A piece still at home. -/
def atHomePiece (i : Int) : Piece :=
  { id := i, position := homePosition, homeStretchPosition := 0, isHome := true,
    isSafe := false, isFinished := false }

/-- A piece inside its home stretch at index `idx`. -/
def stretchPiece (i idx : Int) : Piece :=
  { id := i, position := -2, homeStretchPosition := idx, isHome := false,
    isSafe := true, isFinished := false }

/-- Player A of the concrete sessions: red, order 0, piece 0 on cell 4. -/
def pAnn : Player :=
  { id := "A", name := "Ann", color := .red,
    pieces := [onTrackPiece 0 4, atHomePiece 1, atHomePiece 2, atHomePiece 3],
    order := 0, isReady := true, isHost := true, isBot := false }

/-- Player B of the concrete sessions: blue, order 1, piece 0 on cell 6. -/
def pBob : Player :=
  { id := "B", name := "Bob", color := .blue,
    pieces := [onTrackPiece 0 6, atHomePiece 1, atHomePiece 2, atHomePiece 3],
    order := 1, isReady := true, isHost := false, isBot := false }

/-- A playing 2-player square-board session where it is A's turn, A has
rolled a 2, and moving piece 0 from cell 4 lands on the non-safe cell 6
occupied by B's piece 0. -/
def gCap : Game :=
  { code := "00000001", players := [pAnn, pBob], spectators := [],
    state := .playing, currentTurn := "A", maxPlayers := 4, lastDiceRoll := 2,
    hasRolled := true, consecutiveSixes := 0, winner := "", hostId := "A",
    moveHistory := [], chatMessages := [], captureGrantsTurn := true }

/-- The session after A's capturing move (computed by the model). -/
def gCapMoved : Game :=
  match movePiece gCap "A" 0 with
  | .ok g => g
  | .error _ => gCap

/-! ### C6 — `GetValidMoves` ignores the turn and the roll flag -/

/-- The legal-move test for one piece, following the specification's
wording: a non-finished piece may move iff it is at home with a roll of
6, or inside the stretch with `index + roll ≤ 6`, or on the main track
with an advance that does not overshoot the stretch. -/
def pieceHasLegalMove (maxPlayers : Int) (color : PlayerColor) (roll : Int)
    (pc : Piece) : Bool :=
  !pc.isFinished &&
  (if pc.isHome then decide (roll = 6)
   else if 0 < pc.homeStretchPosition then
     decide (pc.homeStretchPosition + roll ≤ homeStretchSize)
   else
     let res := calculateNewPosition maxPlayers color pc.position roll
     !res.2.1 || decide (res.2.2 ≤ homeStretchSize))

/-- Per-piece shape of the `getValidMovesInternal` body: it yields the
piece's id exactly when `pieceHasLegalMove` accepts the piece. -/
lemma validMove_head_eq (m : Int) (c : PlayerColor) (roll : Int) (a : Piece) :
    (if a.isFinished then none
     else if a.isHome then
       if roll = 6 then some a.id else none
     else if 0 < a.homeStretchPosition then
       if a.homeStretchPosition + roll ≤ homeStretchSize then some a.id
       else none
     else
       match calculateNewPosition m c a.position roll with
       | (_, enteredHS, hsPos) =>
         if enteredHS then
           if hsPos ≤ homeStretchSize then some a.id else none
         else some a.id)
    = (if pieceHasLegalMove m c roll a then some a.id else none) := by
  unfold pieceHasLegalMove
  by_cases hf : a.isFinished
  · simp [hf]
  · by_cases hh : a.isHome
    · by_cases hr : roll = 6 <;> simp [hf, hh, hr]
    · by_cases hs : 0 < a.homeStretchPosition
      · by_cases hle : a.homeStretchPosition + roll ≤ homeStretchSize <;>
          simp [hf, hh, hs, hle]
      · rcases hcalc : calculateNewPosition m c a.position roll with ⟨np, ehs, hp⟩
        cases ehs
        · simp [hf, hh, hs, hcalc]
        · by_cases hle : hp ≤ homeStretchSize <;> simp [hf, hh, hs, hcalc, hle]

/-- The body of `getValidMovesInternal` computes exactly the ids of the
pieces passing `pieceHasLegalMove`. -/
lemma validMoves_filterMap_eq (m : Int) (c : PlayerColor) (roll : Int) (l : List Piece) :
    (l.filterMap (fun piece =>
      if piece.isFinished then none
      else if piece.isHome then
        if roll = 6 then some piece.id else none
      else if 0 < piece.homeStretchPosition then
        if piece.homeStretchPosition + roll ≤ homeStretchSize then some piece.id
        else none
      else
        match calculateNewPosition m c piece.position roll with
        | (_, enteredHS, hsPos) =>
          if enteredHS then
            if hsPos ≤ homeStretchSize then some piece.id else none
          else some piece.id))
    = (l.filter (pieceHasLegalMove m c roll)).map Piece.id := by
  induction l with
  | nil => rfl
  | cons a t ih =>
    simp only [List.filterMap_cons, List.filter_cons]
    rw [validMove_head_eq m c roll a]
    cases hb : pieceHasLegalMove m c roll a <;> simp [hb, ih]

/-- C6 (amended): `GetValidMoves` never consults `CurrentTurn` or
`HasRolled`; for an existing player it returns exactly the ids of the
player's non-finished pieces having a legal move for the last roll
(home pieces only on a 6, stretch pieces only when `index + roll ≤ 6`,
on-track pieces unless the entry computation overshoots the stretch),
and for an unknown id it returns the empty list. -/
theorem getValidMoves_spec (g : Game) (pid : String) :
    ((g.players.find? (fun p => p.id == pid) = none → getValidMoves g pid = []) ∧
     (∀ player, g.players.find? (fun p => p.id == pid) = some player →
        getValidMoves g pid =
          (player.pieces.filter
            (pieceHasLegalMove g.maxPlayers player.color g.lastDiceRoll)).map Piece.id)) ∧
    (∀ s b, getValidMoves { g with currentTurn := s, hasRolled := b } pid =
      getValidMoves g pid) := by
  refine ⟨⟨fun h => ?_, fun player h => ?_⟩, fun s b => rfl⟩
  · unfold getValidMoves getValidMovesInternal
    rw [h]
  · unfold getValidMoves getValidMovesInternal
    rw [h]
    exact validMoves_filterMap_eq g.maxPlayers player.color g.lastDiceRoll player.pieces

/-- C6 witness: in `gCap` with the turn moved to A and the roll flag
cleared, B's legal moves are still computed from the pieces alone. -/
theorem getValidMoves_spec_witness :
    getValidMoves gCap "B" =
      (pBob.pieces.filter
        (pieceHasLegalMove gCap.maxPlayers pBob.color gCap.lastDiceRoll)).map Piece.id :=
  (getValidMoves_spec gCap "B").1.2 pBob (by decide)

/-- C6 counterexample: B is not on turn and `HasRolled` is false, yet
`GetValidMoves` for B is not empty — the claimed guard does not exist in
the source. -/
theorem getValidMoves_ignores_turn_counterexample :
    { gCap with hasRolled := false }.currentTurn ≠ "B" ∧
    { gCap with hasRolled := false }.hasRolled = false ∧
    getValidMoves { gCap with hasRolled := false } "B" = [0] := by
  refine ⟨by decide, rfl, by decide⟩

/-! ### C7 — duplicate colors in hex-variant rooms -/

/-- C7: creating a 5-player (hex-variant) room gives the host the
hard-coded color red, and the first joiner receives `hexColors[1]`,
which is red again — the pairwise-distinctness invariant fails on the
very input the claim singles out. -/
theorem hexJoin_duplicate_color :
    ∃ g0 g1, createGame "h" "Host" 5 "00000000" = .ok g0 ∧
      joinGame g0 "p1" "Pat" = .ok g1 ∧
      g1.players.map Player.color = [.red, .red] ∧
      ¬(g1.players.map Player.color).Nodup ∧
      g1.players.map Player.order = [0, 1] := by
  refine ⟨_, _, rfl, rfl, by decide, by decide, by decide⟩

/-! ### C8 — chat length is checked before trimming -/

/-- A 501-space message: it trims to the empty string but its raw byte
length exceeds the 500-byte limit. -/
def longSpaces : String := String.mk (List.replicate 501 ' ')

set_option maxRecDepth 8000 in
/-- C8 counterexample: the trimmed length of `longSpaces` is 0 ≤ 500,
so the claim demands a successful append, but the source checks the raw
(untrimmed) length and rejects with the chat-too-long error. -/
theorem sendChat_trimmed_length_counterexample :
    (trimSpace longSpaces).length ≤ 500 ∧
    sendChatMessage gCap "A" longSpaces = .error .chatTooLong := by
  exact ⟨by decide, by rfl⟩

/-- Modelled from the amended claim's words: resolve the author (player
first, then spectator), reject exactly when the raw UTF-8 byte length of
the untrimmed text exceeds 500, otherwise append the trimmed text; an
unknown author id gives the not-found error. -/
def sendChatAmended (g : Game) (playerID message : String) : Except GameErr Game :=
  match g.players.find? (fun p => p.id == playerID) with
  | some player =>
    if message.utf8ByteSize ≤ maxChatMessageLen then
      .ok { g with chatMessages := g.chatMessages ++
        [{ playerID := playerID, playerName := player.name,
           message := trimSpace message, isSpectator := false }] }
    else .error .chatTooLong
  | none =>
    match g.spectators.find? (fun s => s.id == playerID) with
    | some spec =>
      if message.utf8ByteSize ≤ maxChatMessageLen then
        .ok { g with chatMessages := g.chatMessages ++
          [{ playerID := playerID, playerName := spec.name,
             message := trimSpace message, isSpectator := true }] }
      else .error .chatTooLong
    | none => .error .playerNotFound

/-- C8 (amended): `SendChatMessage` appends the trimmed text exactly
when the author exists and the raw (untrimmed) byte length of the text
is at most 500; longer raw texts get the chat-too-long error and unknown
ids the not-found error. -/
theorem sendChatMessage_amended_spec (g : Game) (pid msg : String) :
    sendChatMessage g pid msg = sendChatAmended g pid msg := by
  unfold sendChatMessage sendChatAmended
  cases hp : g.players.find? (fun p => p.id == pid) with
  | some player =>
    by_cases hlen : maxChatMessageLen < msg.utf8ByteSize
    · simp [hlen, not_le.mpr hlen]
    · simp [hlen, not_lt.mp hlen]
  | none =>
    cases hs : g.spectators.find? (fun s => s.id == pid) with
    | some spec =>
      by_cases hlen : maxChatMessageLen < msg.utf8ByteSize
      · simp [hlen, not_le.mpr hlen]
      · simp [hlen, not_lt.mp hlen]
    | none => rfl

/-! ### Plumbing lemmas about the players list -/

/-- `find?` by id commutes with a map that preserves ids. -/
lemma find?_map_id (l : List Player) (f : Player → Player) (s : String)
    (hf : ∀ p, (f p).id = p.id) :
    (l.map f).find? (fun p => p.id == s) = (l.find? (fun p => p.id == s)).map f := by
  induction l with
  | nil => rfl
  | cons a t ih =>
    simp only [List.map_cons, List.find?_cons, hf a]
    cases h : (a.id == s) <;> simp [h, ih]

/-- A projection unchanged on every member passes through a map. -/
lemma map_proj_preserve {α : Type} (l : List Player) (f : Player → Player)
    (proj : Player → α) (hf : ∀ p ∈ l, proj (f p) = proj p) :
    (l.map f).map proj = l.map proj := by
  rw [List.map_map]
  exact List.map_congr_left hf

/-- Two members of a list with `Nodup` ids and the same id are equal. -/
lemma eq_of_mem_of_same_id {l : List Player} (hnd : (l.map Player.id).Nodup)
    {p q : Player} (hp : p ∈ l) (hq : q ∈ l) (h : p.id = q.id) : p = q :=
  List.inj_on_of_nodup_map hnd hp hq h

/-- The function `replacePlayer` maps over the players preserves ids. -/
lemma replace_id_preserve (player' : Player) :
    ∀ q : Player, (if q.id = player'.id then player' else q).id = q.id := by
  intro q
  by_cases h : q.id = player'.id <;> simp [h]

/-- The function `checkAndCapture` maps over the players preserves ids
and orders and the piece count. -/
lemma capture_player_preserve (pid : String) (pos : Int) (q : Player) :
    (if q.id == pid then q
     else { q with pieces := q.pieces.map (capturePiece pos) }).id = q.id ∧
    (if q.id == pid then q
     else { q with pieces := q.pieces.map (capturePiece pos) }).order = q.order := by
  by_cases h : q.id == pid <;> simp [h]

/-- `nextTurn` never changes the players, the history, the sixes
counter, the lifecycle state, the winner or the roll value. -/
lemma nextTurn_frame (g : Game) :
    (nextTurn g).players = g.players ∧
    (nextTurn g).moveHistory = g.moveHistory ∧
    (nextTurn g).consecutiveSixes = g.consecutiveSixes ∧
    (nextTurn g).state = g.state ∧
    (nextTurn g).winner = g.winner ∧
    (nextTurn g).lastDiceRoll = g.lastDiceRoll := by
  unfold nextTurn
  cases g.players.find? (fun p => p.id == g.currentTurn) with
  | none => exact ⟨rfl, rfl, rfl, rfl, rfl, rfl⟩
  | some cur =>
    dsimp only
    cases g.players.find? (fun p =>
        p.order == (cur.order + 1).tmod (g.players.length : Int)) with
    | none => exact ⟨rfl, rfl, rfl, rfl, rfl, rfl⟩
    | some nxt => exact ⟨rfl, rfl, rfl, rfl, rfl, rfl⟩

/-- `nextTurn` keeps `HasRolled` cleared. -/
lemma nextTurn_hasRolled (g : Game) (h : g.hasRolled = false) :
    (nextTurn g).hasRolled = false := by
  unfold nextTurn
  cases g.players.find? (fun p => p.id == g.currentTurn) with
  | none => exact h
  | some cur =>
    dsimp only
    cases g.players.find? (fun p =>
        p.order == (cur.order + 1).tmod (g.players.length : Int)) with
    | none => exact h
    | some nxt => rfl

/-- When the current player exists, the orders are in range and hit
every index below `N`, and ids are distinct, `nextTurn` moves the cursor
to a player with order `(currentOrder + 1) tmod N` — a different player
whenever `N ≥ 2`. -/
lemma nextTurn_spec (g : Game) (cur : Player)
    (hfind : g.players.find? (fun p => p.id == g.currentTurn) = some cur)
    (hrange : ∀ p ∈ g.players, 0 ≤ p.order ∧ p.order < (g.players.length : Int))
    (hcomp : ∀ k : Nat, k < g.players.length → ∃ p ∈ g.players, p.order = (k : Int))
    (hids : (g.players.map Player.id).Nodup) (hN : 2 ≤ g.players.length) :
    ∃ nxt ∈ g.players,
      nxt.order = (cur.order + 1).tmod (g.players.length : Int) ∧
      nxt.id ≠ cur.id ∧
      nextTurn g = { g with currentTurn := nxt.id, hasRolled := false } := by
  have hcurmem : cur ∈ g.players := List.mem_of_find?_eq_some hfind
  obtain ⟨ho0, hoN⟩ := hrange cur hcurmem
  have hNpos : (0 : Int) < (g.players.length : Int) := by
    have : (0 : Nat) < g.players.length := by omega
    exact_mod_cast this
  set N : Int := (g.players.length : Int) with hNdef
  have htm : (cur.order + 1).tmod N = (cur.order + 1) % N :=
    Int.tmod_eq_emod (by omega) (by omega)
  have hnext0 : 0 ≤ (cur.order + 1).tmod N := by
    rw [htm]; exact Int.emod_nonneg _ (by omega)
  have hnextN : (cur.order + 1).tmod N < N := by
    rw [htm]; exact Int.emod_lt_of_pos _ hNpos
  -- the next order differs from the current one since N ≥ 2
  have hne : (cur.order + 1).tmod N ≠ cur.order := by
    rw [htm]
    intro heq
    by_cases hlt : cur.order + 1 < N
    · rw [Int.emod_eq_of_lt (by omega) hlt] at heq; omega
    · have hNo : cur.order + 1 = N := by omega
      rw [hNo, Int.emod_self] at heq
      have h2N : (2 : Int) ≤ N := by rw [hNdef]; exact_mod_cast hN
      omega
    -- a player with the next order exists
  obtain ⟨p0, hp0mem, hp0ord⟩ := hcomp ((cur.order + 1).tmod N).toNat (by
    have : (((cur.order + 1).tmod N).toNat : Int) < (g.players.length : Int) := by
      rw [Int.toNat_of_nonneg hnext0]; exact hnextN
    exact_mod_cast this)
  have hp0ord' : p0.order = (cur.order + 1).tmod N := by
    rw [hp0ord, Int.toNat_of_nonneg hnext0]
  have hsome : (g.players.find? (fun p => p.order == (cur.order + 1).tmod N)).isSome := by
    rw [List.find?_isSome]
    exact ⟨p0, hp0mem, by simp [hp0ord']⟩
  obtain ⟨nxt, hfind2⟩ := Option.isSome_iff_exists.mp hsome
  have hnxtmem : nxt ∈ g.players := List.mem_of_find?_eq_some hfind2
  have hnxtord : nxt.order = (cur.order + 1).tmod N := by
    have := List.find?_some hfind2
    simpa using this
  refine ⟨nxt, hnxtmem, hnxtord, ?_, ?_⟩
  · intro hid
    have hcc : nxt = cur := eq_of_mem_of_same_id hids hnxtmem hcurmem hid
    rw [hcc] at hnxtord
    exact hne hnxtord.symm
  · unfold nextTurn
    rw [hfind, ← hNdef]
    dsimp only
    rw [hfind2]

/-! ### Inversion of a successful `MovePiece` -/

/-- A successful `MovePiece` passed every guard and produced
`finishMove` of the piece computed by `computeMovedPiece`. -/
lemma movePiece_ok_elim {g g' : Game} {pid : String} {pieceID : Int}
    (hok : movePiece g pid pieceID = .ok g') :
    g.state = .playing ∧ g.currentTurn = pid ∧ g.hasRolled = true ∧
    ∃ player piece' doCapture,
      g.players.find? (fun p => p.id == pid) = some player ∧
      0 ≤ pieceID ∧ pieceID < (player.pieces.length : Int) ∧
      (player.pieces.getD pieceID.toNat defaultPiece).isFinished = false ∧
      ¬((player.pieces.getD pieceID.toNat defaultPiece).isHome ∧ g.lastDiceRoll ≠ 6) ∧
      computeMovedPiece g.maxPlayers player.color g.lastDiceRoll
        (player.pieces.getD pieceID.toNat defaultPiece) pieceID = .ok (piece', doCapture) ∧
      g' = finishMove g pid pieceID player
        (player.pieces.getD pieceID.toNat defaultPiece) piece' doCapture := by
  simp only [movePiece] at hok
  by_cases h1 : g.state = .paused
  · simp [h1] at hok
  rw [if_neg h1] at hok
  by_cases h2 : g.state ≠ .playing
  · simp [h2] at hok
  rw [if_neg h2] at hok
  by_cases h3 : g.currentTurn ≠ pid
  · simp [h3] at hok
  rw [if_neg h3] at hok
  by_cases h4 : ¬g.hasRolled
  · simp [h4] at hok
  rw [if_neg h4] at hok
  cases hfind : g.players.find? (fun p => p.id == pid) with
  | none => rw [hfind] at hok; exact Except.noConfusion hok
  | some player =>
    rw [hfind] at hok
    dsimp only at hok
    by_cases h5 : pieceID < 0 ∨ (player.pieces.length : Int) ≤ pieceID
    · rw [if_pos h5] at hok; exact Except.noConfusion hok
    rw [if_neg h5] at hok
    by_cases h6 : (player.pieces.getD pieceID.toNat defaultPiece).isFinished
    · rw [if_pos h6] at hok; exact Except.noConfusion hok
    rw [if_neg h6] at hok
    by_cases h7 : (player.pieces.getD pieceID.toNat defaultPiece).isHome ∧ g.lastDiceRoll ≠ 6
    · rw [if_pos h7] at hok; exact Except.noConfusion hok
    rw [if_neg h7] at hok
    cases hcmp : computeMovedPiece g.maxPlayers player.color g.lastDiceRoll
        (player.pieces.getD pieceID.toNat defaultPiece) pieceID with
    | error e => rw [hcmp] at hok; exact Except.noConfusion hok
    | ok pr =>
      obtain ⟨piece', doCapture⟩ := pr
      rw [hcmp] at hok
      dsimp only at hok
      simp only [Except.ok.injEq] at hok
      refine ⟨by tauto, by tauto, by tauto,
        player, piece', doCapture, rfl, by omega, by omega,
        by simpa using h6, h7, hcmp, hok.symm⟩

/-! ### Stage lemmas for `finishMove` -/

/-- `afterCaptures` touches only the players list. -/
lemma afterCaptures_fst_frame (g : Game) (pid : String) (player' : Player)
    (t : Int) (b : Bool) :
    (afterCaptures g pid player' t b).1.moveHistory = g.moveHistory ∧
    (afterCaptures g pid player' t b).1.state = g.state ∧
    (afterCaptures g pid player' t b).1.currentTurn = g.currentTurn ∧
    (afterCaptures g pid player' t b).1.hasRolled = g.hasRolled ∧
    (afterCaptures g pid player' t b).1.consecutiveSixes = g.consecutiveSixes ∧
    (afterCaptures g pid player' t b).1.lastDiceRoll = g.lastDiceRoll ∧
    (afterCaptures g pid player' t b).1.winner = g.winner ∧
    (afterCaptures g pid player' t b).1.maxPlayers = g.maxPlayers := by
  cases b <;> exact ⟨rfl, rfl, rfl, rfl, rfl, rfl, rfl, rfl⟩

/-- The players list produced by `afterCaptures`. -/
lemma afterCaptures_fst_players (g : Game) (pid : String) (player' : Player)
    (t : Int) (b : Bool) :
    (afterCaptures g pid player' t b).1.players =
      if b then (g.players.map (replF player')).map (capPlayer pid t)
      else g.players.map (replF player') := by
  cases b <;> rfl

/-- `capPlayer` preserves ids. -/
lemma capPlayer_id (pid : String) (t : Int) (q : Player) :
    (capPlayer pid t q).id = q.id := by
  unfold capPlayer
  by_cases h : q.id == pid <;> simp [h]

/-- `capPlayer` preserves orders. -/
lemma capPlayer_order (pid : String) (t : Int) (q : Player) :
    (capPlayer pid t q).order = q.order := by
  unfold capPlayer
  by_cases h : q.id == pid <;> simp [h]

/-- `replF` preserves ids. -/
lemma replF_id (player' : Player) (q : Player) : (replF player' q).id = q.id := by
  unfold replF
  by_cases h : q.id = player'.id <;> simp [h]

/-- The players of `finishMove` are those of its capture stage. -/
lemma finishMove_players (g : Game) (pid : String) (pieceID : Int) (player : Player)
    (piece piece' : Piece) (doCapture : Bool) :
    (finishMove g pid pieceID player piece piece' doCapture).players =
      (afterCaptures g pid (moverAfter player pieceID piece')
        piece'.position doCapture).1.players := by
  unfold finishMove
  by_cases hwin : (moverAfter player pieceID piece').pieces.all (fun p => p.isFinished)
  · simp only [hwin, if_true]
  · simp only [hwin, if_false, Bool.false_eq_true]
    by_cases hx : g.lastDiceRoll = 6 ∨
        ((afterCaptures g pid (moverAfter player pieceID piece')
          piece'.position doCapture).2 ∧ g.captureGrantsTurn)
    · simp only [hx, if_true]
    · simp only [hx, if_false]
      exact (nextTurn_frame _).1

/-- The history of `finishMove` is the old history plus the move record. -/
lemma finishMove_moveHistory (g : Game) (pid : String) (pieceID : Int)
    (player : Player) (piece piece' : Piece) (doCapture : Bool) :
    (finishMove g pid pieceID player piece piece' doCapture).moveHistory =
      g.moveHistory ++ [moveRecordOf g pid pieceID piece piece'
        (afterCaptures g pid (moverAfter player pieceID piece')
          piece'.position doCapture).2] := by
  have hmh := (afterCaptures_fst_frame g pid (moverAfter player pieceID piece')
    piece'.position doCapture).1
  unfold finishMove
  by_cases hwin : (moverAfter player pieceID piece').pieces.all (fun p => p.isFinished)
  · simp only [hwin, if_true, hmh]
  · simp only [hwin, if_false, Bool.false_eq_true]
    by_cases hx : g.lastDiceRoll = 6 ∨
        ((afterCaptures g pid (moverAfter player pieceID piece')
          piece'.position doCapture).2 ∧ g.captureGrantsTurn)
    · simp only [hx, if_true, hmh]
    · simp only [hx, if_false]
      rw [(nextTurn_frame _).2.1]
      simp only [hmh]

/-- Looking the mover up after `finishMove` yields exactly the written
back `moverAfter`. -/
lemma finishMove_find_mover (g : Game) (pid : String) (pieceID : Int)
    (player : Player) (piece piece' : Piece) (doCapture : Bool)
    (hfind : g.players.find? (fun p => p.id == pid) = some player) :
    (finishMove g pid pieceID player piece piece' doCapture).players.find?
      (fun p => p.id == pid) = some (moverAfter player pieceID piece') := by
  have hpid : player.id = pid := by
    have := List.find?_some hfind
    simpa using this
  have hmid : (moverAfter player pieceID piece').id = player.id := rfl
  have hrepl : replF (moverAfter player pieceID piece') player =
      moverAfter player pieceID piece' := by
    unfold replF
    rw [if_pos hmid.symm]
  rw [finishMove_players, afterCaptures_fst_players]
  cases doCapture with
  | false =>
    rw [if_neg (by simp), find?_map_id _ _ _ (replF_id _), hfind,
      Option.map_some', hrepl]
  | true =>
    rw [if_pos rfl, find?_map_id _ _ _ (capPlayer_id _ _),
      find?_map_id _ _ _ (replF_id _), hfind, Option.map_some', hrepl,
      Option.map_some']
    unfold capPlayer
    rw [if_pos (by simp [hmid, hpid])]

/-! ### Observations on a session -/

/-- The pieces of the player registered under `pid` (empty when absent). -/
def playerPieces (g : Game) (pid : String) : List Piece :=
  ((g.players.find? (fun p => p.id == pid)).map Player.pieces).getD []

/-- The piece of index `idx` of the player registered under `pid`. -/
def pieceAt (g : Game) (pid : String) (idx : Nat) : Piece :=
  (playerPieces g pid).getD idx defaultPiece

/-- Reading back the written index of a `set`. -/
lemma getD_set_self {α : Type} (l : List α) (n : Nat) (a d : α) (h : n < l.length) :
    (l.set n a).getD n d = a := by
  rw [List.getD_eq_getElem?_getD, List.getElem?_set_eq_of_lt a h]
  rfl

/-- Reading any other index of a `set`. -/
lemma getD_set_ne {α : Type} (l : List α) (m n : Nat) (a d : α) (h : m ≠ n) :
    (l.set m a).getD n d = l.getD n d := by
  rw [List.getD_eq_getElem?_getD, List.getElem?_set_ne h, List.getD_eq_getElem?_getD]

/-- Forward evaluation of `MovePiece` once all state guards pass: it is
the branch on the computed piece move. -/
lemma movePiece_eval (g : Game) (pid : String) (pieceID : Int) (player : Player)
    (hstate : g.state = .playing) (hturn : g.currentTurn = pid)
    (hrolled : g.hasRolled = true)
    (hfind : g.players.find? (fun p => p.id == pid) = some player)
    (hpc0 : 0 ≤ pieceID) (hpcL : pieceID < (player.pieces.length : Int))
    (hnf : (player.pieces.getD pieceID.toNat defaultPiece).isFinished = false)
    (hguard : ¬((player.pieces.getD pieceID.toNat defaultPiece).isHome = true ∧
      g.lastDiceRoll ≠ 6)) :
    movePiece g pid pieceID =
      match computeMovedPiece g.maxPlayers player.color g.lastDiceRoll
          (player.pieces.getD pieceID.toNat defaultPiece) pieceID with
      | .error e => .error e
      | .ok (piece', doCapture) =>
          .ok (finishMove g pid pieceID player
            (player.pieces.getD pieceID.toNat defaultPiece) piece' doCapture) := by
  simp only [movePiece]
  rw [if_neg (by rw [hstate]; simp), if_neg (by rw [hstate]; simp),
    if_neg (by rw [hturn]; simp), if_neg (by rw [hrolled]; simp), hfind]
  dsimp only
  rw [if_neg (by omega), if_neg (by rw [hnf]; simp), if_neg hguard]

/-! ### C10 — history never records the captured player -/

/-- C10: the `MoveRecord` appended by a successful `MovePiece` always
carries an empty `capturedPlayerId`, capture or not: the identity of the
captured player is never recorded. -/
theorem moveRecord_capturedPID_empty (g g' : Game) (pid : String) (pieceID : Int)
    (hok : movePiece g pid pieceID = .ok g') :
    ∃ rec, g'.moveHistory = g.moveHistory ++ [rec] ∧ rec.capturedPID = "" ∧
      rec.playerID = pid ∧ rec.pieceID = pieceID := by
  obtain ⟨-, -, -, player, piece', doCapture, hfind, -, -, -, -, hcmp, hg'⟩ :=
    movePiece_ok_elim hok
  subst hg'
  exact ⟨_, finishMove_moveHistory g pid pieceID player _ piece' doCapture,
    rfl, rfl, rfl⟩

/-- C10 witness: A's move in `gCap` captures B's piece, yet the appended
record still has `capturedPlayerId = ""` (and `wasCapture = true`, shown
by evaluation). -/
theorem moveRecord_capturedPID_empty_witness :
    (∃ rec, gCapMoved.moveHistory = gCap.moveHistory ++ [rec] ∧
      rec.capturedPID = "" ∧ rec.playerID = "A" ∧ rec.pieceID = 0) ∧
    (gCapMoved.moveHistory.getD 0 (moveRecordOf gCap "A" 0 defaultPiece
      defaultPiece false)).wasCapture = true :=
  ⟨moveRecord_capturedPID_empty gCap gCapMoved "A" 0 (by rfl), by decide⟩

/-! ### C4 — home-stretch movement and the exact-roll rule -/

/-- C4: a piece at stretch index `i ∈ [1,5]` with roll `r`: overshoot
(`i + r > 6`) is rejected with the invalid-move error — `movePiece` is a
pure function here, so the error leaves the session exactly as it was,
matching the source which returns before any mutation; `i + r = 6`
finishes the piece; `i + r < 6` advances the stretch index to `i + r`
and keeps the piece safe. -/
theorem movePiece_homeStretch_spec (g : Game) (pid : String) (pieceID : Int)
    (player : Player) (i r : Int)
    (hstate : g.state = .playing)
    (hturn : g.currentTurn = pid)
    (hrolled : g.hasRolled = true)
    (hfind : g.players.find? (fun p => p.id == pid) = some player)
    (hpc0 : 0 ≤ pieceID) (hpcL : pieceID < (player.pieces.length : Int))
    (hstretch : (player.pieces.getD pieceID.toNat defaultPiece).homeStretchPosition = i)
    (hnh : (player.pieces.getD pieceID.toNat defaultPiece).isHome = false)
    (hnf : (player.pieces.getD pieceID.toNat defaultPiece).isFinished = false)
    (hi1 : 1 ≤ i) (hi5 : i ≤ 5)
    (hroll : g.lastDiceRoll = r) (hr1 : 1 ≤ r) (hr6 : r ≤ 6) :
    (6 < i + r → movePiece g pid pieceID = .error .invalidMove) ∧
    (i + r = 6 → ∃ g', movePiece g pid pieceID = .ok g' ∧
      pieceAt g' pid pieceID.toNat =
        { player.pieces.getD pieceID.toNat defaultPiece with
            homeStretchPosition := 6, position := 100 + pieceID,
            isFinished := true, isSafe := true }) ∧
    (i + r < 6 → ∃ g', movePiece g pid pieceID = .ok g' ∧
      pieceAt g' pid pieceID.toNat =
        { player.pieces.getD pieceID.toNat defaultPiece with
            homeStretchPosition := i + r, isSafe := true }) := by
  have heval := movePiece_eval g pid pieceID player hstate hturn hrolled hfind
    hpc0 hpcL hnf (by rw [hnh]; simp)
  have hidx : pieceID.toNat < player.pieces.length := by omega
  refine ⟨?_, ?_, ?_⟩
  · intro hgt
    have hcm : computeMovedPiece g.maxPlayers player.color g.lastDiceRoll
        (player.pieces.getD pieceID.toNat defaultPiece) pieceID =
        .error .invalidMove := by
      unfold computeMovedPiece
      rw [if_neg (by rw [hnh]; simp), if_pos (by rw [hstretch]; omega)]
      dsimp only
      rw [hstretch, hroll, if_pos (by unfold homeStretchSize; omega)]
    rw [heval, hcm]
  · intro heq
    have hcm : computeMovedPiece g.maxPlayers player.color g.lastDiceRoll
        (player.pieces.getD pieceID.toNat defaultPiece) pieceID =
        .ok ({ player.pieces.getD pieceID.toNat defaultPiece with
                homeStretchPosition := homeStretchSize,
                position := finishPosition + pieceID,
                isFinished := true, isSafe := true }, false) := by
      unfold computeMovedPiece
      rw [if_neg (by rw [hnh]; simp), if_pos (by rw [hstretch]; omega)]
      dsimp only
      rw [hstretch, hroll, if_neg (by unfold homeStretchSize; omega),
        if_pos (by unfold homeStretchSize; omega)]
    refine ⟨_, by rw [heval, hcm], ?_⟩
    unfold pieceAt playerPieces
    rw [finishMove_find_mover g pid pieceID player _ _ false hfind]
    simp only [Option.map_some', Option.getD_some, moverAfter]
    rw [getD_set_self _ _ _ _ hidx]
    rfl
  · intro hlt
    have hcm : computeMovedPiece g.maxPlayers player.color g.lastDiceRoll
        (player.pieces.getD pieceID.toNat defaultPiece) pieceID =
        .ok ({ player.pieces.getD pieceID.toNat defaultPiece with
                homeStretchPosition := i + r, isSafe := true }, false) := by
      unfold computeMovedPiece
      rw [if_neg (by rw [hnh]; simp), if_pos (by rw [hstretch]; omega)]
      dsimp only
      rw [hstretch, hroll, if_neg (by unfold homeStretchSize; omega),
        if_neg (by unfold homeStretchSize; omega)]
    refine ⟨_, by rw [heval, hcm], ?_⟩
    unfold pieceAt playerPieces
    rw [finishMove_find_mover g pid pieceID player _ _ false hfind]
    simp only [Option.map_some', Option.getD_some, moverAfter]
    rw [getD_set_self _ _ _ _ hidx]

/-- Player C of the concrete sessions: order 0, piece 0 at stretch
index 3. -/
def pCal : Player :=
  { id := "C", name := "Cal", color := .red,
    pieces := [stretchPiece 0 3, atHomePiece 1, atHomePiece 2, atHomePiece 3],
    order := 0, isReady := true, isHost := true, isBot := false }

/-- A playing session where C is on turn with a rolled 4 and piece 0 at
stretch index 3 — an overshoot. -/
def gStretch : Game :=
  { code := "00000002", players := [pCal, pBob], spectators := [],
    state := .playing, currentTurn := "C", maxPlayers := 4, lastDiceRoll := 4,
    hasRolled := true, consecutiveSixes := 0, winner := "", hostId := "C",
    moveHistory := [], chatMessages := [], captureGrantsTurn := true }

/-- C4 witness: stretch index 3 with roll 4 overshoots (3 + 4 > 6) and
is rejected with the invalid-move error. -/
theorem movePiece_homeStretch_spec_witness :
    movePiece gStretch "C" 0 = .error .invalidMove :=
  (movePiece_homeStretch_spec gStretch "C" 0 pCal 3 4 (by decide) (by decide)
    (by decide) (by decide) (by decide) (by decide) (by decide) (by decide)
    (by decide) (by decide) (by decide) (by decide) (by decide)
    (by decide)).1 (by decide)

/-! ### C3 — captures happen exactly on non-safe main-track landings -/

/-- A stretch entry always happens at a positive stretch index. -/
lemma calculateNewPosition_enter_pos (m : Int) (c : PlayerColor) (p r np hp : Int)
    (h : calculateNewPosition m c p r = (np, true, hp)) : 0 < hp := by
  simp only [calculateNewPosition] at h
  split at h <;> split at h
  · simp only [Prod.mk.injEq] at h
    omega
  · split at h <;> simp at h
  · simp only [Prod.mk.injEq] at h
    omega
  · split at h <;> simp at h

/-- When a successful piece computation lands with stretch index 0 (a
main-track landing, including leaving home), the capture check runs
exactly when the landing cell is not a safe zone. -/
lemma computeMovedPiece_onTrack {m : Int} {c : PlayerColor} {roll : Int}
    {piece piece' : Piece} {pieceID : Int} {doCapture : Bool}
    (h : computeMovedPiece m c roll piece pieceID = .ok (piece', doCapture))
    (hroll : 1 ≤ roll)
    (htrack : piece'.homeStretchPosition = 0) :
    doCapture = (!isSafeZone piece'.position m) := by
  unfold computeMovedPiece at h
  by_cases h1 : piece.isHome = true ∧ roll = 6
  · rw [if_pos h1] at h
    simp only [Except.ok.injEq, Prod.mk.injEq] at h
    obtain ⟨hp', hd⟩ := h
    rw [← hp', ← hd]
    simp [isSafeZone_getStartPosition c m]
  · rw [if_neg h1] at h
    by_cases h2 : 0 < piece.homeStretchPosition
    · rw [if_pos h2] at h
      dsimp only at h
      split at h
      · exact Except.noConfusion h
      · split at h <;>
        · simp only [Except.ok.injEq, Prod.mk.injEq] at h
          obtain ⟨hp', -⟩ := h
          rw [← hp'] at htrack
          simp only [homeStretchSize] at htrack
          omega
    · rw [if_neg h2] at h
      rcases hcalc : calculateNewPosition m c piece.position roll with ⟨np, ehs, hp⟩
      rw [hcalc] at h
      dsimp only at h
      cases ehs with
      | true =>
        rw [if_pos rfl] at h
        split at h
        · exact Except.noConfusion h
        · split at h <;>
          · simp only [Except.ok.injEq, Prod.mk.injEq] at h
            obtain ⟨hp', -⟩ := h
            rw [← hp'] at htrack
            simp only [homeStretchSize] at htrack
            have := calculateNewPosition_enter_pos m c piece.position roll np hp hcalc
            omega
      | false =>
        rw [if_neg (by simp)] at h
        simp only [Except.ok.injEq, Prod.mk.injEq] at h
        obtain ⟨hp', hd⟩ := h
        rw [← hp', ← hd]

/-- C3: on a successful move whose target cell is on the main track
(stretch index 0, not at home): a safe-zone target captures nothing —
every other player is untouched — while a non-safe target sends exactly
the opposing pieces on that cell (with stretch index 0, not at home,
not finished) back home with `position = -1`, stretch index 0,
`atHome = true`, `onSafeCell = false`. -/
theorem movePiece_capture_spec (g g' : Game) (pid : String) (pieceID : Int)
    (hroll : 1 ≤ g.lastDiceRoll)
    (hok : movePiece g pid pieceID = .ok g')
    (htrack : (pieceAt g' pid pieceID.toNat).homeStretchPosition = 0) :
    (isSafeZone (pieceAt g' pid pieceID.toNat).position g.maxPlayers = true →
       ∀ q ∈ g.players, q.id ≠ pid → q ∈ g'.players) ∧
    (isSafeZone (pieceAt g' pid pieceID.toNat).position g.maxPlayers = false →
       ∀ q ∈ g.players, q.id ≠ pid →
         { q with pieces := q.pieces.map (fun pc =>
             if pc.position = (pieceAt g' pid pieceID.toNat).position ∧
                pc.isHome = false ∧ pc.isFinished = false ∧
                pc.homeStretchPosition = 0 then
               { pc with
                   position := -1, isHome := true, isSafe := false,
                   homeStretchPosition := 0 }
             else pc) } ∈ g'.players) := by
  obtain ⟨hstate', hturn', hrolled', player, piece', doCap, hfind, hpc0, hpcL,
    hnf', hguard, hcmp, hg'⟩ := movePiece_ok_elim hok
  subst hg'
  have hidx : pieceID.toNat < player.pieces.length := by omega
  have hpa : pieceAt (finishMove g pid pieceID player
      (player.pieces.getD pieceID.toNat defaultPiece) piece' doCap)
      pid pieceID.toNat = piece' := by
    unfold pieceAt playerPieces
    rw [finishMove_find_mover g pid pieceID player _ piece' doCap hfind]
    simp only [Option.map_some', Option.getD_some, moverAfter]
    exact getD_set_self _ _ _ _ hidx
  rw [hpa] at htrack
  rw [hpa]
  have hdo : doCap = (!isSafeZone piece'.position g.maxPlayers) :=
    computeMovedPiece_onTrack hcmp hroll htrack
  have hpid : player.id = pid := by
    have := List.find?_some hfind
    simpa using this
  have hplayers := finishMove_players g pid pieceID player
    (player.pieces.getD pieceID.toNat defaultPiece) piece' doCap
  rw [afterCaptures_fst_players] at hplayers
  have hreplq : ∀ q ∈ g.players, q.id ≠ pid →
      replF (moverAfter player pieceID piece') q = q := by
    intro q _ hqid
    unfold replF
    rw [if_neg]
    intro hc
    exact hqid (by rw [hc]; exact hpid)
  constructor
  · intro hsafe
    rw [hsafe] at hdo
    simp only [Bool.not_true] at hdo
    subst hdo
    simp only [Bool.false_eq_true, if_false] at hplayers
    intro q hq hqid
    rw [hplayers, ← hreplq q hq hqid]
    exact List.mem_map_of_mem _ hq
  · intro hnosafe
    rw [hnosafe] at hdo
    simp only [Bool.not_false] at hdo
    subst hdo
    simp only [if_true] at hplayers
    intro q hq hqid
    have hcapq : capPlayer pid piece'.position (replF (moverAfter player pieceID piece') q) =
        { q with pieces := q.pieces.map (fun pc =>
            if pc.position = piece'.position ∧ pc.isHome = false ∧
               pc.isFinished = false ∧ pc.homeStretchPosition = 0 then
              { pc with
                  position := -1, isHome := true, isSafe := false,
                  homeStretchPosition := 0 }
            else pc) } := by
      rw [hreplq q hq hqid]
      unfold capPlayer
      rw [if_neg (by simp [hqid])]
      rfl
    rw [hplayers, ← hcapq]
    exact List.mem_map_of_mem _ (List.mem_map_of_mem _ hq)

/-- C3 witness: A's landing on the non-safe cell 6 in `gCap` sends B's
piece 0 home. -/
theorem movePiece_capture_spec_witness :
    { pBob with pieces := pBob.pieces.map (fun pc =>
        if pc.position = (pieceAt gCapMoved "A" 0).position ∧
           pc.isHome = false ∧ pc.isFinished = false ∧
           pc.homeStretchPosition = 0 then
          { pc with
              position := -1, isHome := true, isSafe := false,
              homeStretchPosition := 0 }
        else pc) } ∈ gCapMoved.players :=
  (movePiece_capture_spec gCap gCapMoved "A" 0 (by decide) (by rfl)
    (by decide)).2 (by decide) pBob (by decide) (by decide)

/-! ### C9 — frame: only the moved piece and the captured pieces change -/

/-- Fallback player for list indexing. -/
def defaultPlayer : Player :=
  { id := "", name := "", color := .red, pieces := [], order := 0,
    isReady := false, isHost := false, isBot := false }

/-- `getD` at an in-range index commutes with `map`. -/
lemma getD_map_lt {α β : Type} (l : List α) (f : α → β) (j : Nat) (d : α) (d' : β)
    (h : j < l.length) : (l.map f).getD j d' = f (l.getD j d) := by
  rw [List.getD_eq_getElem?_getD, List.getElem?_map, List.getD_eq_getElem?_getD,
    List.getElem?_eq_getElem h]
  rfl

/-- `getD` at an in-range index is a member. -/
lemma getD_mem_of_lt {α : Type} (l : List α) (j : Nat) (d : α) (h : j < l.length) :
    l.getD j d ∈ l := by
  rw [List.getD_eq_getElem?_getD, List.getElem?_eq_getElem h]
  exact List.getElem_mem h

/-- C9: after a successful `MovePiece` the players keep their count, ids
and piece counts, and the only pieces whose fields changed are the
mover's moved piece and the pieces the move captured (each of those was
capturable — on a cell, with stretch index 0, not at home, not finished
— and is now reset to home). -/
theorem movePiece_frame_spec (g g' : Game) (pid : String) (pieceID : Int)
    (hids : (g.players.map Player.id).Nodup)
    (hok : movePiece g pid pieceID = .ok g') :
    g'.players.length = g.players.length ∧
    ∀ j, j < g.players.length →
      (g'.players.getD j defaultPlayer).id = (g.players.getD j defaultPlayer).id ∧
      (g'.players.getD j defaultPlayer).pieces.length =
        (g.players.getD j defaultPlayer).pieces.length ∧
      ∀ k, k < (g.players.getD j defaultPlayer).pieces.length →
        (g'.players.getD j defaultPlayer).pieces.getD k defaultPiece ≠
          (g.players.getD j defaultPlayer).pieces.getD k defaultPiece →
        (((g.players.getD j defaultPlayer).id = pid ∧ (k : Int) = pieceID) ∨
         ((g.players.getD j defaultPlayer).id ≠ pid ∧
          (g'.players.getD j defaultPlayer).pieces.getD k defaultPiece =
            { (g.players.getD j defaultPlayer).pieces.getD k defaultPiece with
                position := -1, isHome := true, isSafe := false,
                homeStretchPosition := 0 } ∧
          ((g.players.getD j defaultPlayer).pieces.getD k defaultPiece).isHome = false ∧
          ((g.players.getD j defaultPlayer).pieces.getD k defaultPiece).isFinished = false ∧
          ((g.players.getD j defaultPlayer).pieces.getD k
            defaultPiece).homeStretchPosition = 0)) := by
  obtain ⟨-, -, -, player, piece', doCap, hfind, hpc0, hpcL, -, -, hcmp, hg'⟩ :=
    movePiece_ok_elim hok
  subst hg'
  have hpid : player.id = pid := by
    have := List.find?_some hfind
    simpa using this
  have hpmem : player ∈ g.players := List.mem_of_find?_eq_some hfind
  have hplayers := finishMove_players g pid pieceID player
    (player.pieces.getD pieceID.toNat defaultPiece) piece' doCap
  rw [afterCaptures_fst_players] at hplayers
  have hform : ∃ F : Player → Player,
      (finishMove g pid pieceID player
        (player.pieces.getD pieceID.toNat defaultPiece) piece' doCap).players =
        g.players.map F ∧
      (∀ q, q.id ≠ pid →
        F q = if doCap then capPlayer pid piece'.position q else q) ∧
      F player = moverAfter player pieceID piece' := by
    cases doCap with
    | false =>
      refine ⟨replF (moverAfter player pieceID piece'), by simpa using hplayers, ?_, ?_⟩
      · intro q hqid
        simp only [Bool.false_eq_true, if_false]
        unfold replF
        rw [if_neg (fun hc => hqid (by rw [hc]; exact hpid))]
      · unfold replF
        rw [if_pos (show player.id = (moverAfter player pieceID piece').id from rfl)]
    | true =>
      refine ⟨fun q => capPlayer pid piece'.position
        (replF (moverAfter player pieceID piece') q), ?_, ?_, ?_⟩
      · rw [hplayers]
        simp [List.map_map]
      · intro q hqid
        simp only [if_true]
        unfold replF
        rw [if_neg (fun hc => hqid (by rw [hc]; exact hpid))]
      · show capPlayer pid piece'.position
          (replF (moverAfter player pieceID piece') player) = _
        unfold replF
        rw [if_pos (show player.id = (moverAfter player pieceID piece').id from rfl)]
        unfold capPlayer
        rw [if_pos (by simp [moverAfter, hpid])]
  obtain ⟨F, hFeq, hFother, hFmover⟩ := hform
  refine ⟨by rw [hFeq, List.length_map], ?_⟩
  intro j hj
  have hq' : (finishMove g pid pieceID player
      (player.pieces.getD pieceID.toNat defaultPiece) piece' doCap).players.getD
      j defaultPlayer = F (g.players.getD j defaultPlayer) := by
    rw [hFeq]
    exact getD_map_lt _ _ _ _ _ hj
  set q := g.players.getD j defaultPlayer with hqdef
  have hqmem : q ∈ g.players := getD_mem_of_lt _ _ _ hj
  by_cases hqid : q.id = pid
  · have hqp : q = player := eq_of_mem_of_same_id hids hqmem hpmem (by rw [hqid, ← hpid])
    have hFq : F q = moverAfter player pieceID piece' := by rw [hqp, hFmover]
    refine ⟨?_, ?_, ?_⟩
    · rw [hq', hFq, hqp]
      rfl
    · rw [hq', hFq, hqp]
      simp [moverAfter]
    · intro k hk hne
      by_cases hkid : k = pieceID.toNat
      · exact Or.inl ⟨hqid, by rw [hkid]; exact Int.toNat_of_nonneg hpc0⟩
      · exfalso
        apply hne
        rw [hq', hFq, hqp]
        exact getD_set_ne _ _ _ _ _ (fun hc => hkid hc.symm)
  · have hFq := hFother q hqid
    cases doCap with
    | false =>
      simp only [Bool.false_eq_true, if_false] at hFq
      refine ⟨by rw [hq', hFq], by rw [hq', hFq], ?_⟩
      intro k hk hne
      exfalso
      apply hne
      rw [hq', hFq]
    | true =>
      simp only [if_true] at hFq
      have hcap : capPlayer pid piece'.position q =
          { q with pieces := q.pieces.map (capturePiece piece'.position) } := by
        unfold capPlayer
        rw [if_neg (by simp [hqid])]
      refine ⟨?_, ?_, ?_⟩
      · rw [hq', hFq, hcap]
      · rw [hq', hFq, hcap]
        simp
      · intro k hk hne
        have hpc : ((finishMove g pid pieceID player
            (player.pieces.getD pieceID.toNat defaultPiece) piece'
            true).players.getD j defaultPlayer).pieces.getD k defaultPiece =
            capturePiece piece'.position (q.pieces.getD k defaultPiece) := by
          rw [hq', hFq, hcap]
          exact getD_map_lt _ _ _ _ _ hk
        by_cases hcond : (q.pieces.getD k defaultPiece).position = piece'.position ∧
            (q.pieces.getD k defaultPiece).isHome = false ∧
            (q.pieces.getD k defaultPiece).isFinished = false ∧
            (q.pieces.getD k defaultPiece).homeStretchPosition = 0
        · refine Or.inr ⟨hqid, ?_, hcond.2.1, hcond.2.2.1, hcond.2.2.2⟩
          rw [hpc]
          unfold capturePiece
          rw [if_pos hcond]
          rfl
        · exfalso
          apply hne
          rw [hpc]
          unfold capturePiece
          rw [if_neg hcond]

/-- C9 witness: A's capturing move in `gCap` changes only A's piece 0
and B's captured piece 0; every other piece is bitwise unchanged. -/
theorem movePiece_frame_spec_witness :
    gCapMoved.players.length = gCap.players.length ∧
    ∀ j, j < gCap.players.length →
      (gCapMoved.players.getD j defaultPlayer).id =
        (gCap.players.getD j defaultPlayer).id ∧
      (gCapMoved.players.getD j defaultPlayer).pieces.length =
        (gCap.players.getD j defaultPlayer).pieces.length ∧
      ∀ k, k < (gCap.players.getD j defaultPlayer).pieces.length →
        (gCapMoved.players.getD j defaultPlayer).pieces.getD k defaultPiece ≠
          (gCap.players.getD j defaultPlayer).pieces.getD k defaultPiece →
        (((gCap.players.getD j defaultPlayer).id = "A" ∧ (k : Int) = 0) ∨
         ((gCap.players.getD j defaultPlayer).id ≠ "A" ∧
          (gCapMoved.players.getD j defaultPlayer).pieces.getD k defaultPiece =
            { (gCap.players.getD j defaultPlayer).pieces.getD k defaultPiece with
                position := -1, isHome := true, isSafe := false,
                homeStretchPosition := 0 } ∧
          ((gCap.players.getD j defaultPlayer).pieces.getD k
            defaultPiece).isHome = false ∧
          ((gCap.players.getD j defaultPlayer).pieces.getD k
            defaultPiece).isFinished = false ∧
          ((gCap.players.getD j defaultPlayer).pieces.getD k
            defaultPiece).homeStretchPosition = 0)) :=
  movePiece_frame_spec gCap gCapMoved "A" 0 (by decide) (by rfl)

/-! ### C1 — post-move turn logic and win detection -/

/-- The players after the capture stage, as a single map over the
original players that fixes the mover and acts by `capPlayer` (or not at
all) on everyone else. -/
lemma afterCaptures_map_form (g : Game) (pid : String) (pieceID : Int)
    (player : Player) (piece' : Piece) (doCap : Bool)
    (hpid : player.id = pid) :
    ∃ F : Player → Player,
      (afterCaptures g pid (moverAfter player pieceID piece')
        piece'.position doCap).1.players = g.players.map F ∧
      (∀ q, q.id ≠ pid →
        F q = if doCap then capPlayer pid piece'.position q else q) ∧
      F player = moverAfter player pieceID piece' := by
  have hplayers := afterCaptures_fst_players g pid
    (moverAfter player pieceID piece') piece'.position doCap
  cases doCap with
  | false =>
    refine ⟨replF (moverAfter player pieceID piece'), by simpa using hplayers, ?_, ?_⟩
    · intro q hqid
      simp only [Bool.false_eq_true, if_false]
      unfold replF
      rw [if_neg (fun hc => hqid (by rw [hc]; exact hpid))]
    · unfold replF
      rw [if_pos (show player.id = (moverAfter player pieceID piece').id from rfl)]
  | true =>
    refine ⟨fun q => capPlayer pid piece'.position
      (replF (moverAfter player pieceID piece') q), ?_, ?_, ?_⟩
    · rw [hplayers]
      simp [List.map_map]
    · intro q hqid
      simp only [if_true]
      unfold replF
      rw [if_neg (fun hc => hqid (by rw [hc]; exact hpid))]
    · show capPlayer pid piece'.position
        (replF (moverAfter player pieceID piece') player) = _
      unfold replF
      rw [if_pos (show player.id = (moverAfter player pieceID piece').id from rfl)]
      unfold capPlayer
      rw [if_pos (by simp [moverAfter, hpid])]

/-- Ids of the players are untouched by the capture stage. -/
lemma afterCaptures_map_id (g : Game) (pid : String) (player' : Player)
    (t : Int) (b : Bool) :
    ((afterCaptures g pid player' t b).1.players.map Player.id) =
      g.players.map Player.id := by
  rw [afterCaptures_fst_players]
  cases b with
  | false =>
    simp only [Bool.false_eq_true, if_false]
    exact map_proj_preserve _ _ _ (fun p _ => replF_id player' p)
  | true =>
    simp only [if_true]
    rw [map_proj_preserve _ _ _ (fun p _ => capPlayer_id pid t p)]
    exact map_proj_preserve _ _ _ (fun p _ => replF_id player' p)

/-- Orders of the players are untouched by the capture stage (the mover
keeps its order, everyone else is order-preserved too). -/
lemma afterCaptures_map_order (g : Game) (pid : String) (pieceID : Int)
    (player : Player) (piece' : Piece) (t : Int) (b : Bool)
    (hids : (g.players.map Player.id).Nodup)
    (hpmem : player ∈ g.players) :
    ((afterCaptures g pid (moverAfter player pieceID piece') t b).1.players.map
      Player.order) = g.players.map Player.order := by
  have horder : ∀ q ∈ g.players,
      (replF (moverAfter player pieceID piece') q).order = q.order := by
    intro q hq
    unfold replF
    by_cases hc : q.id = (moverAfter player pieceID piece').id
    · rw [if_pos hc]
      have hqp : q = player := eq_of_mem_of_same_id hids hq hpmem hc
      rw [hqp]
      rfl
    · rw [if_neg hc]
  rw [afterCaptures_fst_players]
  cases b with
  | false =>
    simp only [Bool.false_eq_true, if_false]
    exact map_proj_preserve _ _ _ horder
  | true =>
    simp only [if_true]
    rw [map_proj_preserve _ _ _ (fun p _ => capPlayer_order pid t p)]
    exact map_proj_preserve _ _ _ horder

/-- Order-range transfers along an order-map equality. -/
lemma range_of_map_order_eq (l l' : List Player)
    (hmap : l'.map Player.order = l.map Player.order)
    (h : ∀ p ∈ l, 0 ≤ p.order ∧ p.order < (l.length : Int)) :
    ∀ p ∈ l', 0 ≤ p.order ∧ p.order < (l'.length : Int) := by
  intro p hp
  have hlen : l'.length = l.length := by
    have := congrArg List.length hmap
    simpa using this
  have hmem : p.order ∈ l.map Player.order := by
    rw [← hmap]
    exact List.mem_map_of_mem _ hp
  obtain ⟨q, hq, hqo⟩ := List.mem_map.mp hmem
  rw [hlen, ← hqo]
  exact h q hq

/-- Order-completeness transfers along an order-map equality. -/
lemma comp_of_map_order_eq (l l' : List Player)
    (hmap : l'.map Player.order = l.map Player.order)
    (h : ∀ k : Nat, k < l.length → ∃ p ∈ l, p.order = (k : Int)) :
    ∀ k : Nat, k < l'.length → ∃ p ∈ l', p.order = (k : Int) := by
  intro k hk
  have hlen : l'.length = l.length := by
    have := congrArg List.length hmap
    simpa using this
  obtain ⟨q, hq, hqo⟩ := h k (by omega)
  have hmem : q.order ∈ l'.map Player.order := by
    rw [hmap]
    exact List.mem_map_of_mem _ hq
  obtain ⟨p, hp, hpo⟩ := List.mem_map.mp hmem
  exact ⟨p, hp, by rw [hpo, hqo]⟩

/-- Looking the mover up right after the capture stage. -/
lemma afterCaptures_find_mover (g : Game) (pid : String) (pieceID : Int)
    (player : Player) (piece' : Piece) (doCap : Bool)
    (hfind : g.players.find? (fun p => p.id == pid) = some player) :
    (afterCaptures g pid (moverAfter player pieceID piece')
      piece'.position doCap).1.players.find? (fun p => p.id == pid) =
      some (moverAfter player pieceID piece') := by
  have hpid : player.id = pid := by
    have := List.find?_some hfind
    simpa using this
  have hrepl : replF (moverAfter player pieceID piece') player =
      moverAfter player pieceID piece' := by
    unfold replF
    rw [if_pos (show player.id = (moverAfter player pieceID piece').id from rfl)]
  rw [afterCaptures_fst_players]
  cases doCap with
  | false =>
    rw [if_neg (by simp), find?_map_id _ _ _ (replF_id _), hfind,
      Option.map_some', hrepl]
  | true =>
    rw [if_pos rfl, find?_map_id _ _ _ (capPlayer_id _ _),
      find?_map_id _ _ _ (replF_id _), hfind, Option.map_some', hrepl,
      Option.map_some']
    unfold capPlayer
    rw [if_pos (by simp [moverAfter, hpid])]

/-- C1: a successful `movePiece` appends one `MoveRecord` with the roll;
if the mover's four pieces are now all finished the session ends with
the mover as winner; otherwise `hasRolled` is cleared, the cursor stays
on the mover exactly when the roll was a 6 or the move captured with
`captureGrantsExtraTurn` on, and in the advance case `consecutiveSixes`
resets to 0 and the cursor lands on the player whose order is
`(currentOrder + 1) mod N`. -/
theorem movePiece_turn_and_win_spec (g g' : Game) (pid : String) (pieceID : Int)
    (hids : (g.players.map Player.id).Nodup)
    (hrange : ∀ p ∈ g.players, 0 ≤ p.order ∧ p.order < (g.players.length : Int))
    (hcomp : ∀ k : Nat, k < g.players.length → ∃ p ∈ g.players, p.order = (k : Int))
    (hN : 2 ≤ g.players.length)
    (hok : movePiece g pid pieceID = .ok g') :
    ∃ rec, g'.moveHistory = g.moveHistory ++ [rec] ∧
      rec.diceRoll = g.lastDiceRoll ∧
      (if (playerPieces g' pid).all (fun p => p.isFinished) then
        g'.state = .ended ∧ g'.winner = pid
      else
        g'.hasRolled = false ∧
        (g'.currentTurn = pid ↔
          (g.lastDiceRoll = 6 ∨
            (rec.wasCapture = true ∧ g.captureGrantsTurn = true))) ∧
        (¬(g.lastDiceRoll = 6 ∨
            (rec.wasCapture = true ∧ g.captureGrantsTurn = true)) →
          g'.consecutiveSixes = 0 ∧
          ∃ cur nxt, g.players.find? (fun p => p.id == pid) = some cur ∧
            nxt ∈ g.players ∧
            nxt.order = (cur.order + 1).tmod (g.players.length : Int) ∧
            g'.currentTurn = nxt.id)) := by
  obtain ⟨hstate', hturn', hrolled', player, piece', doCap, hfind, hpc0, hpcL,
    hnf', hguard, hcmp, hg'⟩ := movePiece_ok_elim hok
  subst hg'
  have hpid : player.id = pid := by
    have := List.find?_some hfind
    simpa using this
  have hpmem : player ∈ g.players := List.mem_of_find?_eq_some hfind
  have hpp : playerPieces (finishMove g pid pieceID player
      (player.pieces.getD pieceID.toNat defaultPiece) piece' doCap) pid =
      (moverAfter player pieceID piece').pieces := by
    unfold playerPieces
    rw [finishMove_find_mover g pid pieceID player _ piece' doCap hfind]
    rfl
  refine ⟨moveRecordOf g pid pieceID
    (player.pieces.getD pieceID.toNat defaultPiece) piece'
    (afterCaptures g pid (moverAfter player pieceID piece')
      piece'.position doCap).2,
    finishMove_moveHistory g pid pieceID player _ piece' doCap, rfl, ?_⟩
  rw [hpp]
  by_cases hwin : ((moverAfter player pieceID piece').pieces.all
    (fun p => p.isFinished)) = true
  · rw [if_pos hwin]
    constructor
    · show (finishMove g pid pieceID player
        (player.pieces.getD pieceID.toNat defaultPiece) piece' doCap).state = _
      simp only [finishMove]
      rw [if_pos hwin]
    · show (finishMove g pid pieceID player
        (player.pieces.getD pieceID.toNat defaultPiece) piece' doCap).winner = _
      simp only [finishMove]
      rw [if_pos hwin]
  · rw [if_neg hwin]
    have hwc : (moveRecordOf g pid pieceID
        (player.pieces.getD pieceID.toNat defaultPiece) piece'
        (afterCaptures g pid (moverAfter player pieceID piece')
          piece'.position doCap).2).wasCapture =
        (afterCaptures g pid (moverAfter player pieceID piece')
          piece'.position doCap).2 := rfl
    rw [hwc]
    by_cases hx : (g.lastDiceRoll = 6 ∨
        ((afterCaptures g pid (moverAfter player pieceID piece')
          piece'.position doCap).2 = true ∧ g.captureGrantsTurn = true))
    · -- extra turn: the cursor stays on the mover
      have hct : (finishMove g pid pieceID player
          (player.pieces.getD pieceID.toNat defaultPiece) piece'
          doCap).currentTurn = g.currentTurn := by
        simp only [finishMove]
        rw [if_neg hwin, if_pos hx]
        exact (afterCaptures_fst_frame g pid _ _ doCap).2.2.1
      have hhr : (finishMove g pid pieceID player
          (player.pieces.getD pieceID.toNat defaultPiece) piece'
          doCap).hasRolled = false := by
        simp only [finishMove]
        rw [if_neg hwin, if_pos hx]
      refine ⟨hhr, ?_, fun hc => absurd hx hc⟩
      rw [hct, hturn']
      simp [hx]
    · -- advance: the cursor moves to the next order
      set capr := afterCaptures g pid (moverAfter player pieceID piece')
        piece'.position doCap with hcapdef
      set gAdv : Game := { capr.1 with
        moveHistory := capr.1.moveHistory ++ [moveRecordOf g pid pieceID
          (player.pieces.getD pieceID.toNat defaultPiece) piece' capr.2],
        hasRolled := false, consecutiveSixes := 0 } with hgAdvdef
      have hgeq : finishMove g pid pieceID player
          (player.pieces.getD pieceID.toNat defaultPiece) piece' doCap =
          nextTurn gAdv := by
        simp only [finishMove]
        rw [if_neg hwin, if_neg hx]
      have hgpl : gAdv.players = (afterCaptures g pid
          (moverAfter player pieceID piece') piece'.position doCap).1.players := rfl
      have hgct : gAdv.currentTurn = g.currentTurn :=
        (afterCaptures_fst_frame g pid (moverAfter player pieceID piece')
          piece'.position doCap).2.2.1
      have hghr : gAdv.hasRolled = false := rfl
      have hgcs : gAdv.consecutiveSixes = 0 := rfl
      have hmapid : gAdv.players.map Player.id = g.players.map Player.id := by
        rw [hgpl]
        exact afterCaptures_map_id g pid _ _ doCap
      have hmapord : gAdv.players.map Player.order = g.players.map Player.order := by
        rw [hgpl]
        exact afterCaptures_map_order g pid pieceID player piece' piece'.position
          doCap hids hpmem
      have hlen : gAdv.players.length = g.players.length := by
        have := congrArg List.length hmapid
        simpa using this
      have hfindAdv : gAdv.players.find? (fun p => p.id == gAdv.currentTurn) =
          some (moverAfter player pieceID piece') := by
        have hct' : gAdv.currentTurn = pid := by rw [hgct, hturn']
        have h1 : (fun p : Player => p.id == gAdv.currentTurn) =
            (fun p : Player => p.id == pid) := by
          funext p
          rw [hct']
        rw [h1]
        exact afterCaptures_find_mover g pid pieceID player piece' doCap hfind
      have hidsAdv : (gAdv.players.map Player.id).Nodup := by
        rw [hmapid]
        exact hids
      have hrangeAdv := range_of_map_order_eq g.players gAdv.players hmapord hrange
      have hcompAdv := comp_of_map_order_eq g.players gAdv.players hmapord hcomp
      have hNAdv : 2 ≤ gAdv.players.length := by omega
      obtain ⟨nxtA, hmemA, hordA, hneA, hnextEq⟩ :=
        nextTurn_spec gAdv (moverAfter player pieceID piece') hfindAdv
          hrangeAdv hcompAdv hidsAdv hNAdv
      -- pull the next player back to the original players list
      obtain ⟨F, hFeq, hFother, hFmover⟩ :=
        afterCaptures_map_form g pid pieceID player piece' doCap hpid
      have hmemA' : nxtA ∈ g.players.map F := by
        rw [← hFeq, ← hgpl]
        exact hmemA
      obtain ⟨qb, hqb, hqbeq⟩ := List.mem_map.mp hmemA'
      have hqbid : qb.id ≠ pid := by
        intro hqbid
        have hqbp : qb = player := eq_of_mem_of_same_id hids hqb hpmem
          (by rw [hqbid, hpid])
        apply hneA
        rw [← hqbeq, hqbp, hFmover]
      have hFqb : F qb = if doCap then capPlayer pid piece'.position qb else qb :=
        hFother qb hqbid
      have hqb_id : nxtA.id = qb.id := by
        rw [← hqbeq, hFqb]
        cases doCap with
        | false => simp
        | true => simp [capPlayer_id]
      have hqb_ord : nxtA.order = qb.order := by
        rw [← hqbeq, hFqb]
        cases doCap with
        | false => simp
        | true => simp [capPlayer_order]
      refine ⟨?_, ?_, fun _ => ⟨?_, player, qb, hfind, hqb, ?_, ?_⟩⟩
      · rw [hgeq]
        exact nextTurn_hasRolled gAdv hghr
      · -- the cursor is on the next player, which is not the mover
        rw [hgeq, hnextEq]
        show nxtA.id = pid ↔ _
        simp only [hx, iff_false]
        intro hcid
        apply hneA
        rw [hcid]
        exact hpid.symm
      · rw [hgeq, hnextEq]
      · rw [← hqb_ord, hordA, hlen]
        rfl
      · rw [hgeq, hnextEq]
        show nxtA.id = qb.id
        exact hqb_id

/-- C1 witness: A's capturing move in `gCap` keeps the cursor on A (the
capture grants the extra turn), clears `hasRolled`, and appends one
record. -/
theorem movePiece_turn_and_win_spec_witness :
    ∃ rec, gCapMoved.moveHistory = gCap.moveHistory ++ [rec] ∧
      rec.diceRoll = gCap.lastDiceRoll ∧
      (if (playerPieces gCapMoved "A").all (fun p => p.isFinished) then
        gCapMoved.state = .ended ∧ gCapMoved.winner = "A"
      else
        gCapMoved.hasRolled = false ∧
        (gCapMoved.currentTurn = "A" ↔
          (gCap.lastDiceRoll = 6 ∨
            (rec.wasCapture = true ∧ gCap.captureGrantsTurn = true))) ∧
        (¬(gCap.lastDiceRoll = 6 ∨
            (rec.wasCapture = true ∧ gCap.captureGrantsTurn = true)) →
          gCapMoved.consecutiveSixes = 0 ∧
          ∃ cur nxt, gCap.players.find? (fun p => p.id == "A") = some cur ∧
            nxt ∈ gCap.players ∧
            nxt.order = (cur.order + 1).tmod (gCap.players.length : Int) ∧
            gCapMoved.currentTurn = nxt.id)) :=
  movePiece_turn_and_win_spec gCap gCapMoved "A" 0 (by decide) (by decide)
    (by decide) (by decide) (by rfl)

/-! ### C2 — dice rolls and the three-sixes forfeit -/

/-- C2: with the preconditions of `RollDice` satisfied (playing, on
turn, not yet rolled) and a reachable sixes counter (≤ 2): unless the
roll is a 6 that brings the counter to 3, the call returns the roll,
stores it, sets `hasRolled`, keeps the turn, and bumps the counter on a
6 (resetting it otherwise); exactly when a 6 brings the counter to 3,
the counter resets to 0, `hasRolled` goes back to false, the turn
passes to the player of the next order, and the call still returns the
roll tagged as three-sixes.  In particular `hasRolled` ends true iff the
three-sixes advance did not fire. -/
theorem rollDice_spec (g : Game) (pid : String) (r : Int) (cur : Player)
    (hstate : g.state = .playing) (hturn : g.currentTurn = pid)
    (hrolled : g.hasRolled = false) (hcs : g.consecutiveSixes ≤ 2)
    (hcur : g.players.find? (fun p => p.id == pid) = some cur)
    (hids : (g.players.map Player.id).Nodup)
    (hrange : ∀ p ∈ g.players, 0 ≤ p.order ∧ p.order < (g.players.length : Int))
    (hcomp : ∀ k : Nat, k < g.players.length → ∃ p ∈ g.players, p.order = (k : Int))
    (hN : 2 ≤ g.players.length) :
    (¬(r = 6 ∧ g.consecutiveSixes + 1 = 3) →
      ∃ g2, rollDice g pid r = .ok r g2 ∧ g2.lastDiceRoll = r ∧
        g2.hasRolled = true ∧ g2.currentTurn = pid ∧ g2.players = g.players ∧
        g2.consecutiveSixes = (if r = 6 then g.consecutiveSixes + 1 else 0)) ∧
    ((r = 6 ∧ g.consecutiveSixes + 1 = 3) →
      ∃ g2, rollDice g pid r = .threeSixes r g2 ∧ g2.lastDiceRoll = r ∧
        g2.hasRolled = false ∧ g2.consecutiveSixes = 0 ∧
        ∃ nxt ∈ g.players,
          nxt.order = (cur.order + 1).tmod (g.players.length : Int) ∧
          g2.currentTurn = nxt.id ∧ nxt.id ≠ pid) := by
  have hguards : rollDice g pid r =
      (let g1 := { g with lastDiceRoll := r, hasRolled := true }
       if r = 6 then
         let g2 := { g1 with consecutiveSixes := g1.consecutiveSixes + 1 }
         if maxConsecutiveSixes ≤ g2.consecutiveSixes then
           RollResult.threeSixes r
             (nextTurn { g2 with consecutiveSixes := 0, hasRolled := false })
         else RollResult.ok r g2
       else RollResult.ok r { g1 with consecutiveSixes := 0 }) := by
    unfold rollDice
    rw [if_neg (by rw [hstate]; simp), if_neg (by rw [hstate]; simp),
      if_neg (by rw [hturn]; simp), if_neg (by rw [hrolled]; simp)]
  constructor
  · intro hnot
    by_cases hr6 : r = 6
    · have h3 : ¬(maxConsecutiveSixes ≤ g.consecutiveSixes + 1) := by
        unfold maxConsecutiveSixes
        omega
      refine ⟨{ g with
          lastDiceRoll := r, hasRolled := true,
          consecutiveSixes := g.consecutiveSixes + 1 }, ?_, rfl, rfl, hturn, rfl, ?_⟩
      · rw [hguards]
        dsimp only
        rw [if_pos hr6, if_neg h3]
      · rw [if_pos hr6]
    · refine ⟨{ g with
          lastDiceRoll := r, hasRolled := true,
          consecutiveSixes := 0 }, ?_, rfl, rfl, hturn, rfl, ?_⟩
      · rw [hguards]
        dsimp only
        rw [if_neg hr6]
      · rw [if_neg hr6]
  · intro hyes
    obtain ⟨hr6, h3⟩ := hyes
    subst hr6
    set gMid : Game := { g with
      lastDiceRoll := 6, hasRolled := false,
      consecutiveSixes := 0 } with hgMid
    have hroll6 : rollDice g pid 6 = .threeSixes 6 (nextTurn gMid) := by
      rw [hguards]
      dsimp only
      rw [if_pos rfl, if_pos (by unfold maxConsecutiveSixes; omega)]
    have hfindMid : gMid.players.find? (fun p => p.id == gMid.currentTurn) =
        some cur := by
      have h1 : (fun p : Player => p.id == gMid.currentTurn) =
          (fun p : Player => p.id == pid) := by
        funext p
        have : gMid.currentTurn = pid := hturn
        rw [this]
      rw [h1]
      exact hcur
    obtain ⟨nxt, hmem, hord, hne, hnextEq⟩ :=
      nextTurn_spec gMid cur hfindMid hrange hcomp hids hN
    have hcurid : cur.id = pid := by
      have := List.find?_some hcur
      simpa using this
    refine ⟨nextTurn gMid, hroll6, ?_, ?_, ?_, nxt, hmem, hord, ?_,
      fun h => hne (h.trans hcurid.symm)⟩
    · rw [hnextEq]
    · rw [hnextEq]
    · rw [hnextEq]
    · rw [hnextEq]

/-- A playing session where A is on turn, has not rolled, and already
holds two consecutive sixes. -/
def gRoll : Game :=
  { code := "00000003", players := [pAnn, pBob], spectators := [],
    state := .playing, currentTurn := "A", maxPlayers := 4, lastDiceRoll := 6,
    hasRolled := false, consecutiveSixes := 2, winner := "", hostId := "A",
    moveHistory := [], chatMessages := [], captureGrantsTurn := true }

/-- C2 witness: with two sixes on the counter, a third 6 in `gRoll`
fires the three-sixes forfeit — the roll is still returned, the counter
resets, `hasRolled` stays false and the turn passes to B. -/
theorem rollDice_spec_witness :
    (¬((6 : Int) = 6 ∧ gRoll.consecutiveSixes + 1 = 3) →
      ∃ g2, rollDice gRoll "A" 6 = .ok 6 g2 ∧ g2.lastDiceRoll = 6 ∧
        g2.hasRolled = true ∧ g2.currentTurn = "A" ∧ g2.players = gRoll.players ∧
        g2.consecutiveSixes =
          (if (6 : Int) = 6 then gRoll.consecutiveSixes + 1 else 0)) ∧
    (((6 : Int) = 6 ∧ gRoll.consecutiveSixes + 1 = 3) →
      ∃ g2, rollDice gRoll "A" 6 = .threeSixes 6 g2 ∧ g2.lastDiceRoll = 6 ∧
        g2.hasRolled = false ∧ g2.consecutiveSixes = 0 ∧
        ∃ nxt ∈ gRoll.players,
          nxt.order = (pAnn.order + 1).tmod (gRoll.players.length : Int) ∧
          g2.currentTurn = nxt.id ∧ nxt.id ≠ "A") :=
  rollDice_spec gRoll "A" 6 pAnn (by decide) (by decide) (by decide) (by decide)
    (by decide) (by decide) (by decide) (by decide) (by decide)

end LudoNadwa
